import Mathlib

/-!
Verification development for the sharo scripting-language runtime
(a single-pass bytecode compiler plus stack-based VM written in C).

The definitions below are a shallow embedding, translated from the C
sources: `value.h` / `value.c` (value representation and equality),
`object.c` (string interning, array construction), `vm.c` (instruction
handlers of the dispatch loop), `compiler.c` (jump patching) and
`scanner.c` (tokenizing).  Machine integers are modelled as `Int` with
explicit wrapping (`% 2 ^ 48`) where the NaN-boxed encoding masks the
payload; IEEE-754 doubles are modelled by the domain `Flt` (NaN, signed
infinity, or a finite value as a rational) together with an explicit
round-to-nearest-even model of the int64-to-double conversion; the
binary operations on doubles that no claim inspects numerically
(addition, division of floats) are passed as parameters.
-/

namespace Sharo

/-- Model of an IEEE-754 binary64 value at the level the runtime observes:
a quiet NaN, a signed infinity, or a finite value given as a rational. -/
inductive Flt where
  | nan : Flt
  | inf (negative : Bool) : Flt
  | num (q : ℚ) : Flt
deriving DecidableEq

/-- IEEE-754 `==` on doubles: NaN is unequal to everything (itself
included); infinities compare by sign; finite values compare as numbers
(both signed zeros are the rational 0, matching IEEE `-0.0 == 0.0`). -/
def Flt.feq : Flt → Flt → Bool
  | .num p, .num q => decide (p = q)
  | .inf s, .inf t => decide (s = t)
  | _, _ => false

/-- Round a natural number to the nearest value representable with a
53-bit significand, ties to even: the rounding the C cast
`(double)int64` performs on magnitudes above `2 ^ 53`.  (For `int64`
inputs the exponent range of binary64 is never exceeded.) -/
def roundSigTo53 (n : Nat) : Nat :=
  if n ≤ 2 ^ 53 then n
  else
    -- drop the lowest s bits, where 2 ^ (52 + s) ≤ n < 2 ^ (53 + s)
    let s := ((List.range 64).find? (fun k => n < 2 ^ (53 + k))).getD 0
    let q := n / 2 ^ s
    let r := n % 2 ^ s
    let half := 2 ^ (s - 1)
    if half < r ∨ (r = half ∧ q % 2 = 1) then (q + 1) * 2 ^ s else q * 2 ^ s

/-- Model of the C conversion `(double)i` for a 64-bit integer `i`:
exact when `|i| ≤ 2 ^ 53`, otherwise rounded to nearest, ties to even. -/
def intRoundB64 (i : Int) : Int :=
  if i < 0 then -(roundSigTo53 i.natAbs : Int) else (roundSigTo53 i.natAbs : Int)

/-- Truncation toward zero of a rational, the C cast `(int64_t)d` for a
finite double `d` in range. -/
def truncRat (q : ℚ) : Int :=
  if 0 ≤ q then ⌊q⌋ else ⌈q⌉

/-- The C cast `(int64_t)d` on the double model.  On NaN or infinity the
cast is undefined behaviour in C; the model returns 0 there (no claim
depends on it). -/
def castF2I : Flt → Int
  | .num q => truncRat q
  | .nan => 0
  | .inf _ => 0

/-- Runtime values, following the tagged-union branch of `value.h`
(`VAL_BOOL`, `VAL_NIL`, `VAL_INT`, `VAL_FLOAT`, `VAL_PTR`, `VAL_OBJ`).
Integers are `int64_t`; heap objects and raw pointers are identified by
their address, modelled as a `Nat` index. -/
inductive Value where
  | vBool (b : Bool) : Value
  | vNil : Value
  | vInt (i : Int) : Value
  | vFloat (f : Flt) : Value
  | vPtr (p : Nat) : Value
  | vObj (o : Nat) : Value
deriving DecidableEq

/-- The numeric tag of a `Value`, in the order of the `ValueType` enum of
`value.h`; `a.type != b.type` in C is `vtag a ≠ vtag b` here. -/
def vtag : Value → Nat
  | .vBool _ => 0
  | .vNil => 1
  | .vInt _ => 2
  | .vFloat _ => 3
  | .vPtr _ => 4
  | .vObj _ => 5

/-- `IS_INT` of `value.h`. -/
def isInt : Value → Bool
  | .vInt _ => true
  | _ => false

/-- `IS_FLOAT` of `value.h`. -/
def isFloat : Value → Bool
  | .vFloat _ => true
  | _ => false

/-- `IS_NUMBER` of `value.h`: int or float. -/
def isNumber (v : Value) : Bool := isInt v || isFloat v

/-- `AS_INT` (only meaningful on `vInt`; other tags never reach it). -/
def asIntV : Value → Int
  | .vInt i => i
  | _ => 0

/-- `AS_NUMBER` of `value.h`: a double, converting an int payload with
the C cast `(double)`.  Only ever applied under `IS_NUMBER`; the other
arms are unreachable in the C code and return 0 here. -/
def asNumberF : Value → Flt
  | .vInt i => .num ((intRoundB64 i : Int) : ℚ)
  | .vFloat f => f
  | _ => .num 0

/-- `valuesEqual` of `value.c` (tagged-union branch): values of distinct
types are unequal except that two numbers compare via `AS_NUMBER`; equal
tags compare payloads, objects by pointer (interned strings make this
string equality). -/
def valuesEqual (a b : Value) : Bool :=
  if vtag a ≠ vtag b then
    if isNumber a && isNumber b then (asNumberF a).feq (asNumberF b)
    else false
  else
    match a, b with
    | .vBool x, .vBool y => decide (x = y)
    | .vNil, .vNil => true
    | .vInt x, .vInt y => decide (x = y)
    | .vFloat x, .vFloat y => x.feq y
    | .vPtr x, .vPtr y => decide (x = y)
    | .vObj x, .vObj y => decide (x = y)
    | _, _ => false

/-- Composition `AS_INT (INT_VAL i)` of the NaN-boxed encoding of
`value.h`: `INT_VAL` masks the payload to its low 48 bits and
`nanbox_as_int` sign-extends bit 47. -/
def int48wrap (i : Int) : Int :=
  let p := i % 2 ^ 48
  if p < 2 ^ 47 then p else p - 2 ^ 48

/-- An integer is representable as a NaN-boxed int Value exactly when
the mask-and-sign-extend round trip preserves it. -/
def nanboxIntRepresentable (i : Int) : Prop := int48wrap i = i

/-- Is a value a float NaN?  (Such values arise at runtime, e.g. from
`0.0 / 0.0` on the unguarded float division path.) -/
def isNaNV : Value → Bool
  | .vFloat .nan => true
  | _ => false

/-- Heap objects (`object.h`), identified by their index in the VM's
heap.  A native stores its C function pointer as an id, dereferenced
through the host's registry (the `natives` parameter of `execCALL`); a
struct instance records its definition and field values; an array its
element sequence. -/
inductive HObj where
  | hString (chars : List Char) : HObj
  | hClosure (arity : Nat) : HObj
  | hNative (fnId : Nat) : HObj
  | hStructDef (name : List Char) (fieldCount : Nat) : HObj
  | hStruct (defn : Nat) (fields : List Value) : HObj
  | hBoundMethod (receiver : Value) (method : Nat) : HObj
  | hArray (elems : List Value) : HObj
deriving DecidableEq

/-- An `ObjUpvalue`: open when `loc = some i` (its `location` points at
stack slot `i`), closed when `loc = none` (its `location` points at its
own `closed` storage). -/
structure Upv where
  loc : Option Nat
  closed : Value
deriving DecidableEq

/-- A `CallFrame`: the running closure (heap index), instruction
pointer, and the absolute stack index of slot 0 (`frame->slots`). -/
structure Frame where
  closure : Nat
  ip : Nat
  slots : Nat
deriving DecidableEq

/-- The VM state.  `stack` is bottom-first (index = C stack address,
`stackTop` = length); `frames` is bottom-first (`frameCount` = length);
`framesMax` stands for the `FRAMES_MAX` bound whose numeric value lives
in the absent `vm.h` (the spec says "typically 64"); `upvs` is the store
of allocated `ObjUpvalue`s, `openUpvalues` the VM's open-upvalue list
(ids into `upvs`, sorted by descending location); `strings` is the
intern table.  Modelled from the spec: `table.c`/`table.h` are absent
from the sources, so the intern table is taken as what spec section 4.4
specifies it implements — a finite map from byte sequences to the unique
interned string object, looked up by content. -/
structure VM where
  stack : List Value
  frames : List Frame
  framesMax : Nat
  heap : List HObj
  upvs : List Upv
  openUpvalues : List Nat
  strings : List (List Char × Nat)
deriving DecidableEq

/-- Result of one instruction handler: continue in a (possibly new)
state, stop with `INTERPRET_OK` (`RETURN` from the last frame), or raise
a runtime error (`runtimeError(...)` followed by
`INTERPRET_RUNTIME_ERROR`, which unwinds the whole VM). -/
inductive Res where
  | ok (s : VM) : Res
  | halt : Res
  | err (msg : String) : Res
deriving DecidableEq

/-- `push` of `vm.c`. -/
def pushV (s : VM) (v : Value) : VM := { s with stack := s.stack ++ [v] }

/-- Pop `n` values (`vm.stackTop -= n`). -/
def popN (s : VM) (n : Nat) : VM :=
  { s with stack := s.stack.take (s.stack.length - n) }

/-- `peek(distance)` of `vm.c`: `vm.stackTop[-1 - distance]`.  The
default is never reached on the stacks the dispatch loop runs on. -/
def peekV (s : VM) (distance : Nat) : Value :=
  s.stack.getD (s.stack.length - 1 - distance) .vNil

/-- Contents of the string object at heap index `o`, when it is one. -/
def contentsOfS (s : VM) (o : Nat) : Option (List Char) :=
  match s.heap.get? o with
  | some (.hString cs) => some cs
  | _ => none

/-- `IS_STRING` of `object.h`: an object value whose heap tag is
`OBJ_STRING`. -/
def isString (s : VM) : Value → Bool
  | .vObj o => (contentsOfS s o).isSome
  | _ => false

/-- `AS_STRING`'s character contents (meaningful under `isString`). -/
def strContents (s : VM) : Value → List Char
  | .vObj o => (contentsOfS s o).getD []
  | _ => []

/-- `tableFindString(&vm.strings, chars, ...)`: look the byte sequence
up in the intern table. -/
def findString (s : VM) (chars : List Char) : Option Nat :=
  (s.strings.find? (fun e => e.1 == chars)).map (·.2)

/-- `takeString` of `object.c`: return the already-interned string for
these contents if present, else allocate a new string object and intern
it (`allocateString` + `tableSet`).  Returns the new state and the heap
index of the resulting `ObjString`. -/
def takeString (s : VM) (chars : List Char) : VM × Nat :=
  match findString s chars with
  | some o => (s, o)
  | none =>
    ({ s with
        heap := s.heap ++ [.hString chars]
        strings := s.strings ++ [(chars, s.heap.length)] },
      s.heap.length)

/-- `copyString` of `object.c`: interning behaviour identical to
`takeString` (the two differ only in buffer ownership). -/
def copyString (s : VM) (chars : List Char) : VM × Nat := takeString s chars

/-- Well-formedness of the intern table: every entry points at a string
object with exactly those contents, and no two entries intern the same
contents.  Every table reachable from a fresh VM through `takeString`
satisfies this. -/
def StringsWF (s : VM) : Prop :=
  (∀ e ∈ s.strings, s.heap.get? e.2 = some (.hString e.1)) ∧
    (s.strings.map Prod.fst).Nodup

/-- The loop of `closeUpvalues` (vm.c): while the head of the open list
points at a slot at or above `last`, copy the stack value into the
upvalue's own storage, redirect its location there, and unlink it.
Returns the updated upvalue store and open list.  The fall-through arms
for a dangling id or an already-closed head cannot occur on VM states
the interpreter constructs. -/
def closeUpvLoop (stack : List Value) (upvs : List Upv) (opens : List Nat)
    (last : Nat) : List Upv × List Nat :=
  match opens with
  | [] => (upvs, [])
  | id :: rest =>
    match upvs.get? id with
    | some u =>
      match u.loc with
      | some l =>
        if last ≤ l then
          closeUpvLoop stack (upvs.set id ⟨none, stack.getD l .vNil⟩) rest last
        else (upvs, id :: rest)
      | none => (upvs, id :: rest)
    | none => (upvs, id :: rest)

/-- `closeUpvalues(last)` of `vm.c` on the VM state. -/
def closeUpvalues (s : VM) (last : Nat) : VM :=
  let r := closeUpvLoop s.stack s.upvs s.openUpvalues last
  { s with upvs := r.1, openUpvalues := r.2 }

/-- The stack location the upvalue `id` currently points at, if it is
in range and open (`upvalue->location` in `vm.c`, as a slot index). -/
def locAt (upvs : List Upv) (id : Nat) : Option Nat :=
  (upvs.get? id).bind Upv.loc

/-- The `OP_RETURN` handler of the switch-dispatch loop (vm.c:3733):
pop the result, pop the frame, and if frames remain, reset the stack top
to the returning frame's slot base and push the result.  Note: this
handler never calls `closeUpvalues`. -/
def execRETURNswitch (s : VM) : Res :=
  match s.frames.getLast? with
  | none => .err "no active frame"
  | some fr =>
    let result := s.stack.getLast?.getD .vNil
    let s1 := { s with frames := s.frames.dropLast }
    if s1.frames.length = 0 then .halt
    else .ok { s1 with stack := s.stack.take fr.slots ++ [result] }

/-- The `do_RETURN` handler of the computed-goto dispatch loop
(vm.c:2614): identical to the switch handler except that it calls
`closeUpvalues(frame->slots)` after popping the result.  The C `pop()`
leaves the popped cell in the backing array, so running `closeUpvalues`
on the untruncated stack reads exactly what the C code reads. -/
def execRETURNgoto (s : VM) : Res :=
  match s.frames.getLast? with
  | none => .err "no active frame"
  | some fr =>
    let result := s.stack.getLast?.getD .vNil
    let s1 := closeUpvalues s fr.slots
    let s2 := { s1 with frames := s1.frames.dropLast }
    if s2.frames.length = 0 then .halt
    else .ok { s2 with stack := s.stack.take fr.slots ++ [result] }

/-- The `OP_CALL` handler (vm.c:3290): peek the callee at depth `argc`
and dispatch on its heap tag — native invocation, closure call
(arity and `FRAMES_MAX` checks, then a frame whose slot base is
`stackTop - argc - 1`), struct construction, bound-method call, or the
"Can only call functions." error. -/
def execCALL (natives : Nat → Nat → List Value → Value) (s : VM)
    (argCount : Nat) : Res :=
  match peekV s argCount with
  | .vObj o =>
    match s.heap.get? o with
    | some (.hNative fnId) =>
      let args := s.stack.drop (s.stack.length - argCount)
      let result := natives fnId argCount args
      .ok (pushV (popN s (argCount + 1)) result)
    | some (.hClosure arity) =>
      if argCount ≠ arity then .err "Expected %d arguments but got %d."
      else if s.frames.length = s.framesMax then .err "Stack overflow."
      else .ok { s with
        frames := s.frames ++ [⟨o, 0, s.stack.length - argCount - 1⟩] }
    | some (.hStructDef _ fieldCount) =>
      if argCount ≠ fieldCount then .err "Expected %d arguments but got %d."
      else
        let fields := (List.range argCount).map (fun i => peekV s (argCount - 1 - i))
        let s1 := { s with heap := s.heap ++ [.hStruct o fields] }
        .ok (pushV (popN s1 (argCount + 1)) (.vObj s.heap.length))
    | some (.hBoundMethod receiver m) =>
      match s.heap.get? m with
      | some (.hClosure arity) =>
        if argCount ≠ arity then .err "Expected %d arguments but got %d."
        else if s.frames.length = s.framesMax then .err "Stack overflow."
        else
          let s1 := { s with
            stack := s.stack.set (s.stack.length - argCount - 1) receiver }
          .ok { s1 with
            frames := s1.frames ++ [⟨m, 0, s1.stack.length - argCount - 1⟩] }
      | _ => .err "Can only call functions."
    | _ => .err "Can only call functions."
  | _ => .err "Can only call functions."

/-- `writeArray` of `object.c`: append one value (capacity growth is
transparent in the model). -/
def writeArray (elems : List Value) (v : Value) : List Value := elems ++ [v]

/-- The `OP_ARRAY count` handler (vm.c:3396): allocate an empty array,
push it (GC protection), append `peek(i + 1)` for `i = count - 1` down
to `0` — i.e. the deepest of the `count` values first — then pop the
elements plus the temporary reference and push the array. -/
def execARRAY (s : VM) (count : Nat) : Res :=
  let arrId := s.heap.length
  let s1 := pushV { s with heap := s.heap ++ [.hArray []] } (.vObj arrId)
  let elems := (List.range count).foldl
    (fun acc j => writeArray acc (peekV s1 (count - j))) []
  let s2 := { s1 with heap := s1.heap.set arrId (.hArray elems) }
  .ok (pushV (popN s2 (count + 1)) (.vObj arrId))

/-- `concatenate` of `vm.c`: both operands are strings; build the
concatenation of their contents, intern it with `takeString`, pop the
operands and push the result. -/
def concatenate (s : VM) : Res :=
  let cb := strContents s (peekV s 0)
  let ca := strContents s (peekV s 1)
  let r := takeString s (ca ++ cb)
  .ok (pushV (popN r.1 2) (.vObj r.2))

/-- `valueToString` of `vm.c`: ints print in decimal (`%lld`), floats
with `%g` (modelled by the parameter `fmtFloat`, since `snprintf` is
libc code outside this repository), booleans and nil by their literal
spellings, strings convert to themselves, all other values to
`"<object>"`.  Non-string results go through `copyString`, so the
returned buffer is interned. -/
def valueToString (fmtFloat : Flt → List Char) (s : VM) :
    Value → VM × List Char
  | .vInt i => let cs := (toString i).data; ((copyString s cs).1, cs)
  | .vFloat f => let cs := fmtFloat f; ((copyString s cs).1, cs)
  | .vBool b =>
    let cs := (if b then "true" else "false").data
    ((copyString s cs).1, cs)
  | .vNil => let cs := "nil".data; ((copyString s cs).1, cs)
  | .vObj o =>
    match contentsOfS s o with
    | some cs => (s, cs)
    | none => let cs := "<object>".data; ((copyString s cs).1, cs)
  | .vPtr _ => let cs := "<object>".data; ((copyString s cs).1, cs)

/-- `concatenateAny` of `vm.c`: at least one operand is a string;
stringify both (the C pushes the first result as GC protection and pops
it again, a stack no-op in the model), concatenate, intern with
`takeString`, pop the operands and push the result. -/
def concatenateAny (fmtFloat : Flt → List Char) (s : VM) : Res :=
  let bVal := peekV s 0
  let aVal := peekV s 1
  let rb := valueToString fmtFloat s bVal
  let ra := valueToString fmtFloat rb.1 aVal
  let r := takeString ra.1 (ra.2 ++ rb.2)
  .ok (pushV (popN r.1 2) (.vObj r.2))

/-- The `OP_ADD` handler (vm.c:3159): two strings concatenate; one
string stringifies the other operand and concatenates; two ints push
the int sum; two numbers with a float among them push the double sum
(the parameter `faddD` is IEEE double addition); anything else is a
runtime error. -/
def execADD (fmtFloat : Flt → List Char) (faddD : Flt → Flt → Flt)
    (s : VM) : Res :=
  if isString s (peekV s 0) && isString s (peekV s 1) then
    concatenate s
  else if isString s (peekV s 0) || isString s (peekV s 1) then
    concatenateAny fmtFloat s
  else if isInt (peekV s 0) && isInt (peekV s 1) then
    let b := asIntV (peekV s 0)
    let a := asIntV (peekV s 1)
    .ok (pushV (popN s 2) (.vInt (a + b)))
  else if isNumber (peekV s 0) && isNumber (peekV s 1) then
    let b := asNumberF (peekV s 0)
    let a := asNumberF (peekV s 1)
    .ok (pushV (popN s 2) (.vFloat (faddD a b)))
  else .err "Operands must be two numbers or two strings."

/-- The `OP_DIVIDE` handler (vm.c:3208): the int/int path checks for a
zero divisor and pushes the truncating quotient (C `/` on `int64_t`);
the numeric path with a float among the operands performs the IEEE
double division `fdivD` unconditionally — no zero check; anything else
is a runtime error. -/
def execDIVIDE (fdivD : Flt → Flt → Flt) (s : VM) : Res :=
  if isInt (peekV s 0) && isInt (peekV s 1) then
    let b := asIntV (peekV s 0)
    let a := asIntV (peekV s 1)
    if b = 0 then .err "Division by zero."
    else .ok (pushV (popN s 2) (.vInt (Int.tdiv a b)))
  else if isNumber (peekV s 0) && isNumber (peekV s 1) then
    let b := asNumberF (peekV s 0)
    let a := asNumberF (peekV s 1)
    .ok (pushV (popN s 2) (.vFloat (fdivD a b)))
  else .err "Operands must be numbers."

/-- The `OP_MODULO` handler (vm.c:3227): integers only; zero divisor is
a runtime error; otherwise the C `%` remainder (truncated toward
zero). -/
def execMODULO (s : VM) : Res :=
  if !(isInt (peekV s 0)) || !(isInt (peekV s 1)) then
    .err "Operands must be integers for modulo."
  else
    let b := asIntV (peekV s 0)
    let a := asIntV (peekV s 1)
    if b = 0 then .err "Division by zero."
    else .ok (pushV (popN s 2) (.vInt (Int.tmod a b)))

/-- The `OP_INT_TO_FLOAT` handler (vm.c:3257): an int on top is
required (`IS_INT` guard), and `FLOAT_VAL((double)AS_INT(...))` is
pushed; the guard and the extraction collapse to one match here. -/
def execINTTOFLOAT (s : VM) : Res :=
  match peekV s 0 with
  | .vInt i => .ok (pushV (popN s 1) (.vFloat (.num ((intRoundB64 i : Int) : ℚ))))
  | _ => .err "Expected integer for conversion."

/-- The `OP_FLOAT_TO_INT` handler (vm.c:3264): a float on top is
required (`IS_FLOAT` guard), and `INT_VAL((int64_t)AS_FLOAT(...))` is
pushed. -/
def execFLOATTOINT (s : VM) : Res :=
  match peekV s 0 with
  | .vFloat f => .ok (pushV (popN s 1) (.vInt (castF2I f)))
  | _ => .err "Expected float for conversion."

/-- Sequencing of two instruction handlers. -/
def Res.andThen (r : Res) (f : VM → Res) : Res :=
  match r with
  | .ok s => f s
  | r => r

/-- Does a handler result continue normally (no runtime error)? -/
def Res.isOkB : Res → Bool
  | .ok _ => true
  | _ => false

/-- The continuation state of a normal result, `dflt` otherwise. -/
def Res.stateD : Res → VM → VM
  | .ok s, _ => s
  | _, dflt => dflt

/-- The value-level round trip of `INT_TO_FLOAT` then `FLOAT_TO_INT`
under the NaN-boxed encoding: `AS_INT` has already sign-extended the
48-bit payload to `i`, the conversion and truncation happen as above,
and the final `INT_VAL` masks back to 48 bits. -/
def nanboxIntRoundTrip (i : Int) : Int :=
  int48wrap (castF2I (.num ((intRoundB64 i : Int) : ℚ)))

/-! Scanner (`scanner.c` / `scanner.h`).  Tokens are modelled by their
type and the list of characters consumed; line tracking and the
whitespace/comment skipping that precedes `scanToken`'s dispatch carry
no information any claim depends on and are omitted: `scanToken` below
is the dispatch from `scanner.start = scanner.current` onwards. -/

/-- The `TokenType` enum of `scanner.h`. -/
inductive TokenType where
  | lparen | rparen | lbrace | rbrace | lbracket | rbracket
  | comma | dot | semicolon
  | plus | minus | star | slash | percent
  | bang | bangEqual | equal | equalEqual
  | greater | greaterEqual | less | lessEqual
  | colon | colonEqual | arrow | question | atSign | ampersand
  | identifier | stringLit | number | numberFloat
  | intKw | floatKw | boolKw | strKw | ptrKw | byteKw | voidKw
  | trueKw | falseKw | nilKw
  | ifKw | elseKw | forKw | inKw | whileKw | matchKw
  | returnKw | breakKw | continueKw
  | typeKw | externKw | selfKw | importKw | exportKw
  | andKw | orKw | notKw
  | errorTok | eofTok
deriving DecidableEq

/-- A scanned token: its type and the characters it covers (for an
error token, the message). -/
structure Token where
  type : TokenType
  lexeme : List Char
deriving DecidableEq

/-- `isAlpha` of `scanner.c`. -/
def isAlphaC (c : Char) : Bool :=
  (('a' ≤ c && c ≤ 'z') || ('A' ≤ c && c ≤ 'Z')) || c = '_'

/-- `isDigit` of `scanner.c`. -/
def isDigitC (c : Char) : Bool := '0' ≤ c && c ≤ '9'

/-- `isHexDigit` of `scanner.c`. -/
def isHexDigitC (c : Char) : Bool :=
  (isDigitC c || ('a' ≤ c && c ≤ 'f')) || ('A' ≤ c && c ≤ 'F')

/-- `checkKeyword` of `scanner.c`: the identifier `s` is the keyword
when its total length is `start + rest.length` and the characters from
`start` match `rest` (`memcmp`). -/
def checkKeyword (s : List Char) (start : Nat) (rest : List Char)
    (t : TokenType) : TokenType :=
  if s.length = start + rest.length ∧ s.drop start = rest then t
  else .identifier

/-- `identifierType` of `scanner.c`: trie-based keyword recognition
over the scanned identifier.  The C switches on the first character
and, when the length exceeds 1, on the second (`rest0.head? = some c`
states both at once) before finishing with `checkKeyword`; the two
`if (length == 2)` early returns of the `'i'` case appear verbatim. -/
def identKwBranch (s : List Char) (c0 : Char) (rest0 : List Char) :
    TokenType :=
  if c0 = 'a' then checkKeyword s 1 ['n', 'd'] .andKw
  else if c0 = 'b' then
    if rest0.head? = some 'o' then checkKeyword s 2 ['o', 'l'] .boolKw
    else if rest0.head? = some 'r' then checkKeyword s 2 ['e', 'a', 'k'] .breakKw
    else if rest0.head? = some 'y' then checkKeyword s 2 ['t', 'e'] .byteKw
    else .identifier
  else if c0 = 'c' then
    checkKeyword s 1 ['o', 'n', 't', 'i', 'n', 'u', 'e'] .continueKw
  else if c0 = 'e' then
    if rest0.head? = some 'l' then checkKeyword s 2 ['s', 'e'] .elseKw
    else if rest0.head? = some 'x' then
      checkKeyword s 2 ['t', 'e', 'r', 'n'] .externKw
    else .identifier
  else if c0 = 'f' then
    if rest0.head? = some 'a' then checkKeyword s 2 ['l', 's', 'e'] .falseKw
    else if rest0.head? = some 'l' then checkKeyword s 2 ['o', 'a', 't'] .floatKw
    else if rest0.head? = some 'o' then checkKeyword s 2 ['r'] .forKw
    else .identifier
  else if c0 = 'i' then
    if rest0.head? = some 'f' then
      if s.length = 2 then .ifKw else .identifier
    else if rest0.head? = some 'n' then
      if s.length = 2 then .inKw else checkKeyword s 2 ['t'] .intKw
    else .identifier
  else if c0 = 'm' then checkKeyword s 1 ['a', 't', 'c', 'h'] .matchKw
  else if c0 = 'n' then
    if rest0.head? = some 'i' then checkKeyword s 2 ['l'] .nilKw
    else if rest0.head? = some 'o' then checkKeyword s 2 ['t'] .notKw
    else .identifier
  else if c0 = 'o' then checkKeyword s 1 ['r'] .orKw
  else if c0 = 'p' then checkKeyword s 1 ['t', 'r'] .ptrKw
  else if c0 = 'r' then checkKeyword s 1 ['e', 't', 'u', 'r', 'n'] .returnKw
  else if c0 = 's' then checkKeyword s 1 ['t', 'r'] .strKw
  else if c0 = 't' then
    if rest0.head? = some 'r' then checkKeyword s 2 ['u', 'e'] .trueKw
    else if rest0.head? = some 'y' then checkKeyword s 2 ['p', 'e'] .typeKw
    else .identifier
  else if c0 = 'v' then checkKeyword s 1 ['o', 'i', 'd'] .voidKw
  else if c0 = 'w' then checkKeyword s 1 ['h', 'i', 'l', 'e'] .whileKw
  else .identifier

/-- The dispatch of `identifierType`: an empty lexeme cannot be a
keyword; otherwise run the trie on the first characters. -/
def identifierType (s : List Char) : TokenType :=
  match s with
  | [] => .identifier
  | c0 :: rest0 => identKwBranch (c0 :: rest0) c0 rest0

/-- `identifier()` of `scanner.c`: consume alphanumerics, then classify
with `identifierType`. -/
def identifierTok (src : List Char) : Token :=
  let lex := src.takeWhile (fun c => isAlphaC c || isDigitC c)
  ⟨identifierType lex, lex⟩

/-- `number()` of `scanner.c` (entered after one digit was consumed;
`c0` is that digit, `rest` the remaining source): `0x` hex and `0b`
binary forms, else decimal with optional fraction and exponent; a
fraction or exponent makes the token a float literal. -/
def numberTok (c0 : Char) (rest : List Char) : Token :=
  if c0 = '0' ∧ (rest.head? = some 'x' ∨ rest.head? = some 'X') then
    ⟨.number, c0 :: rest.take 1 ++ (rest.drop 1).takeWhile isHexDigitC⟩
  else if c0 = '0' ∧ (rest.head? = some 'b' ∨ rest.head? = some 'B') then
    ⟨.number, c0 :: rest.take 1 ++
      (rest.drop 1).takeWhile (fun c => c = '0' || c = '1')⟩
  else
    let intPart := rest.takeWhile isDigitC
    let r1 := rest.drop intPart.length
    let frac :=
      match r1 with
      | '.' :: d :: _ => if isDigitC d then '.' :: (r1.drop 1).takeWhile isDigitC else []
      | _ => []
    let r2 := r1.drop frac.length
    let expPart :=
      match r2 with
      | e :: r3 =>
        if e = 'e' ∨ e = 'E' then
          match r3 with
          | sg :: r4 =>
            if sg = '+' ∨ sg = '-' then e :: sg :: r4.takeWhile isDigitC
            else e :: r3.takeWhile isDigitC
          | [] => [e]
        else []
      | [] => []
    let isFloatLit := frac ≠ [] ∨ expPart ≠ []
    ⟨if isFloatLit then .numberFloat else .number,
      c0 :: intPart ++ frac ++ expPart⟩

/-- The loop of `string()` of `scanner.c`: consume up to and including
the closing quote; a backslash makes the following character literal;
`none` on an unterminated string. -/
def stringBody : List Char → Option (List Char)
  | [] => none
  | '"' :: _ => some ['"']
  | '\\' :: c :: rest => (stringBody rest).map (fun l => '\\' :: c :: l)
  | c :: rest => (stringBody rest).map (fun l => c :: l)

/-- `string()` of `scanner.c` (after the opening quote). -/
def stringTok (rest : List Char) : Token :=
  match stringBody rest with
  | some consumed => ⟨.stringLit, '"' :: consumed⟩
  | none => ⟨.errorTok, "Unterminated string.".data⟩

/-- `scanToken` of `scanner.c`, from the first significant character:
identifiers/keywords, numbers, punctuation, the two-character operators
`-> != == <= >= :=` (each formed by `match('...')`), string literals,
or an error token. -/
def scanToken (src : List Char) : Token :=
  match src with
  | [] => ⟨.eofTok, []⟩
  | c :: rest =>
    if isAlphaC c then identifierTok src
    else if isDigitC c then numberTok c rest
    else
      match c with
      | '(' => ⟨.lparen, [c]⟩
      | ')' => ⟨.rparen, [c]⟩
      | '{' => ⟨.lbrace, [c]⟩
      | '}' => ⟨.rbrace, [c]⟩
      | '[' => ⟨.lbracket, [c]⟩
      | ']' => ⟨.rbracket, [c]⟩
      | ',' => ⟨.comma, [c]⟩
      | '.' => ⟨.dot, [c]⟩
      | ';' => ⟨.semicolon, [c]⟩
      | '+' => ⟨.plus, [c]⟩
      | '*' => ⟨.star, [c]⟩
      | '/' => ⟨.slash, [c]⟩
      | '%' => ⟨.percent, [c]⟩
      | '?' => ⟨.question, [c]⟩
      | '@' => ⟨.atSign, [c]⟩
      | '&' => ⟨.ampersand, [c]⟩
      | '-' =>
        match rest with
        | '>' :: _ => ⟨.arrow, ['-', '>']⟩
        | _ => ⟨.minus, [c]⟩
      | '!' =>
        match rest with
        | '=' :: _ => ⟨.bangEqual, ['!', '=']⟩
        | _ => ⟨.bang, [c]⟩
      | '=' =>
        match rest with
        | '=' :: _ => ⟨.equalEqual, ['=', '=']⟩
        | _ => ⟨.equal, [c]⟩
      | '<' =>
        match rest with
        | '=' :: _ => ⟨.lessEqual, ['<', '=']⟩
        | _ => ⟨.less, [c]⟩
      | '>' =>
        match rest with
        | '=' :: _ => ⟨.greaterEqual, ['>', '=']⟩
        | _ => ⟨.greater, [c]⟩
      | ':' =>
        match rest with
        | '=' :: _ => ⟨.colonEqual, [':', '=']⟩
        | _ => ⟨.colon, [c]⟩
      | '"' => stringTok rest
      | _ => ⟨.errorTok, "Unexpected character.".data⟩

/-- The keyword table realized by `identifierType`'s trie: exactly these
byte sequences map to reserved-word tokens. -/
def kwPairs : List (List Char × TokenType) :=
  [("and".data, .andKw), ("bool".data, .boolKw), ("break".data, .breakKw),
   ("byte".data, .byteKw), ("continue".data, .continueKw),
   ("else".data, .elseKw), ("extern".data, .externKw),
   ("false".data, .falseKw), ("float".data, .floatKw), ("for".data, .forKw),
   ("if".data, .ifKw), ("in".data, .inKw), ("int".data, .intKw),
   ("match".data, .matchKw), ("nil".data, .nilKw), ("not".data, .notKw),
   ("or".data, .orKw), ("ptr".data, .ptrKw), ("return".data, .returnKw),
   ("str".data, .strKw), ("true".data, .trueKw), ("type".data, .typeKw),
   ("void".data, .voidKw), ("while".data, .whileKw)]

/-! Compiler bytecode emission and jump patching (`compiler.c`).
Modelled from the spec where the repository's `chunk.c` is absent:
`writeChunk` appends one byte and one line entry to the chunk's growable
arrays (spec sections 2 and 6: a chunk is a flat byte array with a
parallel line array).  `patchJump` and `emitLoop` are translated from
`compiler.c` itself. -/

/-- An in-memory `Chunk`: code bytes and per-byte line numbers (the
constant pool plays no part in the claims below). -/
structure CChunk where
  code : List Nat
  lines : List Nat
deriving DecidableEq

/-- Compiler state for emission: the current chunk and the compile
errors reported so far (`error()` sets `parser.hadError`; `hadError`
here is `errors ≠ []`). -/
structure CompilerState where
  chunk : CChunk
  errors : List String
deriving DecidableEq

/-- A fresh compiler state. -/
def initCompiler : CompilerState := ⟨⟨[], []⟩, []⟩

/-- `error(msg)` of `compiler.c`, reduced to its observable effect here:
record that compilation failed and with which message. -/
def reportError (c : CompilerState) (msg : String) : CompilerState :=
  { c with errors := c.errors ++ [msg] }

/-- `writeChunk` (modelled from the spec, `chunk.c` being absent):
append the byte and its source line. -/
def writeChunk (ch : CChunk) (byte : Nat) (line : Nat) : CChunk :=
  { code := ch.code ++ [byte], lines := ch.lines ++ [line] }

/-- `emitByte` of `compiler.c` (the token line number is irrelevant to
the claims and passed as 0). -/
def emitByte (c : CompilerState) (byte : Nat) : CompilerState :=
  { c with chunk := writeChunk c.chunk byte 0 }

/-- `emitJump` of `compiler.c`: the jump opcode plus two placeholder
bytes; returns the offset of the placeholder. -/
def emitJump (c : CompilerState) (instruction : Nat) : CompilerState × Nat :=
  let c1 := emitByte (emitByte (emitByte c instruction) 0xff) 0xff
  (c1, c1.chunk.code.length - 2)

/-- The numeric value of `OP_LOOP` in the `OpCode` enum of `chunk.h`. -/
def opLOOP : Nat := 43

/-- `patchJump` of `compiler.c`: the forward distance is
`count - offset - 2`; above `UINT16_MAX` it reports "Too much code to
jump over." — and the (truncated) 16-bit big-endian offset is written in
either case, exactly as in the C code. -/
def patchJump (c : CompilerState) (offset : Nat) : CompilerState :=
  let jump : Int := (c.chunk.code.length : Int) - offset - 2
  let c1 := if jump > 65535 then reportError c "Too much code to jump over." else c
  { c1 with chunk := { c1.chunk with
      code := (c1.chunk.code.set offset ((jump.toNat >>> 8) % 256)).set
        (offset + 1) (jump.toNat % 256) } }

/-- `emitLoop` of `compiler.c`: emit `OP_LOOP`, compute the backward
distance `count - loopStart + 2`, report "Loop body too large." above
`UINT16_MAX`, and emit the 16-bit big-endian delta. -/
def emitLoop (c : CompilerState) (loopStart : Nat) : CompilerState :=
  let c1 := emitByte c opLOOP
  let offset : Int := (c1.chunk.code.length : Int) - loopStart + 2
  let c2 := if offset > 65535 then reportError c1 "Loop body too large." else c1
  emitByte (emitByte c2 ((offset.toNat >>> 8) % 256)) (offset.toNat % 256)

/-- Emit a list of bytes in order. -/
def emitBytesList (c : CompilerState) (bytes : List Nat) : CompilerState :=
  bytes.foldl emitByte c

/-- A VM state about to execute `RETURN` from the second frame: slot 0
is the script closure, slot 1 the running closure (its frame's slot
base), slot 2 a local of the running frame captured by the single open
upvalue, slot 3 the return value.  The open upvalue points at slot 2,
which lies at (in fact above) the returning frame's slot base 1. -/
def returnBugState : VM where
  stack := [.vObj 0, .vObj 1, .vInt 7, .vInt 9]
  frames := [⟨0, 0, 0⟩, ⟨1, 0, 1⟩]
  framesMax := 64
  heap := [.hClosure 0, .hClosure 0]
  upvs := [⟨some 2, .vNil⟩]
  openUpvalues := [0]
  strings := []

/-!  Theorems.  First a toolbox of list/stack lemmas shared by several
claims, then the claims in order. -/

theorem getD_appendR {α : Type} (l1 l2 : List α) (j : Nat)
    (d : α) : (l1 ++ l2).getD (l1.length + j) d = l2.getD j d := by
  simp [List.getD, List.getElem?_append_right]

theorem peekV_shape (s : VM) (rest l : List Value) (h : s.stack = rest ++ l)
    (d : Nat) (hd : d < l.length) :
    peekV s d = l.getD (l.length - 1 - d) .vNil := by
  have harith : rest.length + l.length - 1 - d = rest.length + (l.length - 1 - d) := by
    omega
  rw [peekV, h, List.length_append, harith, getD_appendR]

theorem popN_shape (s : VM) (rest l : List Value) (h : s.stack = rest ++ l) :
    popN s l.length = { s with stack := rest } := by
  have harith : rest.length + l.length - l.length = rest.length := by omega
  rw [popN, h, List.length_append, harith]
  simp

theorem pushV_popN_shape (s : VM) (rest l : List Value)
    (h : s.stack = rest ++ l) (v : Value) :
    pushV (popN s l.length) v = { s with stack := rest ++ [v] } := by
  rw [popN_shape s rest l h]
  rfl

theorem foldl_append_singleton (f : Nat → Value) (L : List Nat)
    (acc : List Value) :
    L.foldl (fun a j => a ++ [f j]) acc = acc ++ L.map f := by
  induction L generalizing acc with
  | nil => simp
  | cons x xs ih => simp [ih]

theorem map_getD_range (l : List Value) :
    (List.range l.length).map (fun j => l.getD j .vNil) = l := by
  induction l with
  | nil => rfl
  | cons x xs ih =>
    rw [List.length_cons, List.range_succ_eq_map, List.map_cons, List.map_map]
    exact congrArg (x :: ·) ih

theorem roundSigTo53_of_le (n : Nat) (h : n ≤ 2 ^ 53) : roundSigTo53 n = n := by
  rw [roundSigTo53, if_pos h]

theorem pushV_popN_one (s : VM) (rest : List Value) (a : Value)
    (h : s.stack = rest ++ [a]) (v : Value) :
    pushV (popN s 1) v = { s with stack := rest ++ [v] } :=
  pushV_popN_shape s rest [a] h v

theorem pushV_popN_two (s : VM) (rest : List Value) (a b : Value)
    (h : s.stack = rest ++ [a, b]) (v : Value) :
    pushV (popN s 2) v = { s with stack := rest ++ [v] } :=
  pushV_popN_shape s rest [a, b] h v

theorem intRoundB64_eq_self (i : Int) (h1 : -(2 ^ 53) ≤ i) (h2 : i ≤ 2 ^ 53) :
    intRoundB64 i = i := by
  have hn : i.natAbs ≤ 2 ^ 53 := by omega
  rw [intRoundB64, roundSigTo53_of_le _ hn]
  split <;> omega

theorem truncRat_intCast (i : Int) : truncRat ((i : Int) : ℚ) = i := by
  rw [truncRat]
  split <;> simp

theorem locAt_eq_some (upvs : List Upv) (id : Nat) (l : Nat) :
    locAt upvs id = some l ↔ ∃ u, upvs.get? id = some u ∧ u.loc = some l := by
  simp [locAt, Option.bind_eq_some]

theorem get?_set_ne_upv (l : List Upv) (i j : Nat) (a : Upv) (h : j ≠ i) :
    (l.set i a).get? j = l.get? j := by
  simp [List.get?_eq_getElem?, List.getElem?_set, Ne.symm h]

theorem closeUpvLoop_subset (stack : List Value) (last : Nat) :
    ∀ (opens : List Nat) (upvs : List Upv),
      (closeUpvLoop stack upvs opens last).2 ⊆ opens := by
  intro opens
  induction opens with
  | nil =>
    intro upvs
    simp [closeUpvLoop]
  | cons id0 rest ih =>
    intro upvs
    cases hget : upvs.get? id0 with
    | none =>
      simp only [closeUpvLoop, hget]
      exact fun x hx => hx
    | some u =>
      cases hloc : u.loc with
      | none =>
        simp only [closeUpvLoop, hget, hloc]
        exact fun x hx => hx
      | some l0 =>
        by_cases hle : last ≤ l0
        · simp only [closeUpvLoop, hget, hloc, if_pos hle]
          exact fun x hx => List.mem_cons_of_mem _ (ih _ hx)
        · simp only [closeUpvLoop, hget, hloc, if_neg hle]
          exact fun x hx => hx

theorem closeUpvLoop_get_of_notMem (stack : List Value) (last : Nat) :
    ∀ (opens : List Nat) (upvs : List Upv) (id : Nat), id ∉ opens →
      (closeUpvLoop stack upvs opens last).1.get? id = upvs.get? id := by
  intro opens
  induction opens with
  | nil =>
    intro upvs id _
    simp [closeUpvLoop]
  | cons id0 rest ih =>
    intro upvs id hid
    have hne : id ≠ id0 := fun h => hid (h ▸ List.mem_cons_self id0 rest)
    have hnr : id ∉ rest := fun h => hid (List.mem_cons_of_mem _ h)
    cases hget : upvs.get? id0 with
    | none => simp only [closeUpvLoop, hget]
    | some u =>
      cases hloc : u.loc with
      | none => simp only [closeUpvLoop, hget, hloc]
      | some l0 =>
        by_cases hle : last ≤ l0
        · simp only [closeUpvLoop, hget, hloc, if_pos hle]
          rw [ih _ id hnr, get?_set_ne_upv _ _ _ _ hne]
        · simp only [closeUpvLoop, hget, hloc, if_neg hle]

/-- On an open-upvalue list sorted by strictly decreasing stack
location (the invariant `captureUpvalue`'s sorted insertion maintains),
with every listed upvalue open and in range, the `closeUpvalues` loop
closes exactly the upvalues at or above `last`: each such upvalue's
storage receives the stack value at its location and its id leaves the
open list, while every upvalue below `last` is untouched and stays
listed. -/
theorem closeUpvLoop_spec (stack : List Value) (last : Nat) :
    ∀ (opens : List Nat) (upvs : List Upv),
      (∀ id ∈ opens, ∃ l, locAt upvs id = some l) →
      opens.Pairwise (fun i j => ∀ li lj,
        locAt upvs i = some li → locAt upvs j = some lj → lj < li) →
      ∀ id ∈ opens, ∀ l, locAt upvs id = some l →
        (last ≤ l →
          (closeUpvLoop stack upvs opens last).1.get? id =
            some ⟨none, stack.getD l .vNil⟩ ∧
          id ∉ (closeUpvLoop stack upvs opens last).2) ∧
        (l < last →
          (closeUpvLoop stack upvs opens last).1.get? id = upvs.get? id ∧
          id ∈ (closeUpvLoop stack upvs opens last).2) := by
  intro opens
  induction opens with
  | nil =>
    intro upvs _ _ id hid
    exact absurd hid (List.not_mem_nil id)
  | cons id0 rest ih =>
    intro upvs hopen hsort id hid l hl
    obtain ⟨l0, hl0⟩ := hopen id0 (List.mem_cons_self id0 rest)
    obtain ⟨u0, hu0, hu0loc⟩ := (locAt_eq_some upvs id0 l0).mp hl0
    have hrel : ∀ j ∈ rest, ∀ li lj,
        locAt upvs id0 = some li → locAt upvs j = some lj → lj < li :=
      (List.pairwise_cons.mp hsort).1
    have hsr : rest.Pairwise (fun i j => ∀ li lj,
        locAt upvs i = some li → locAt upvs j = some lj → lj < li) :=
      (List.pairwise_cons.mp hsort).2
    have hid0nr : id0 ∉ rest := by
      intro hmem
      exact absurd (hrel id0 hmem l0 l0 hl0 hl0) (lt_irrefl l0)
    by_cases hle : last ≤ l0
    · simp only [closeUpvLoop, hu0, hu0loc, if_pos hle]
      set upvs2 := upvs.set id0 ⟨none, stack.getD l0 .vNil⟩ with hupvs2
      have hloc_ne : ∀ j, j ≠ id0 → locAt upvs2 j = locAt upvs j := by
        intro j hj
        unfold locAt
        rw [hupvs2, get?_set_ne_upv _ _ _ _ hj]
      have hopen2 : ∀ j ∈ rest, ∃ lj, locAt upvs2 j = some lj := by
        intro j hj
        have hjne : j ≠ id0 := fun h => hid0nr (h ▸ hj)
        rw [hloc_ne j hjne]
        exact hopen j (List.mem_cons_of_mem _ hj)
      have hsort2 : rest.Pairwise (fun i j => ∀ li lj,
          locAt upvs2 i = some li → locAt upvs2 j = some lj → lj < li) := by
        refine hsr.imp_of_mem ?_
        intro i j hi hj hR li lj hli hlj
        have hine : i ≠ id0 := fun h => hid0nr (h ▸ hi)
        have hjne : j ≠ id0 := fun h => hid0nr (h ▸ hj)
        rw [hloc_ne i hine] at hli
        rw [hloc_ne j hjne] at hlj
        exact hR li lj hli hlj
      rcases List.mem_cons.mp hid with rfl | hmem
      · obtain rfl : l = l0 := by
          rw [hl] at hl0
          injection hl0
        refine ⟨fun _ => ?_, fun hlt => absurd hle (not_le.mpr hlt)⟩
        constructor
        · rw [closeUpvLoop_get_of_notMem stack last rest upvs2 id hid0nr]
          have hlen : id < upvs.length := by
            rw [List.get?_eq_getElem?] at hu0
            exact (List.getElem?_eq_some.mp hu0).1
          simp [hupvs2, List.get?_eq_getElem?, List.getElem?_set_self, hlen]
        · intro hmem2
          exact hid0nr (closeUpvLoop_subset stack last rest upvs2 hmem2)
      · have hidne : id ≠ id0 := fun h => hid0nr (h ▸ hmem)
        have hl2 : locAt upvs2 id = some l := by
          rw [hloc_ne id hidne]
          exact hl
        have hmain := ih upvs2 hopen2 hsort2 id hmem l hl2
        refine ⟨fun hle2 => hmain.1 hle2, fun hlt => ?_⟩
        obtain ⟨hg, hm⟩ := hmain.2 hlt
        refine ⟨?_, hm⟩
        rw [hg, hupvs2, get?_set_ne_upv _ _ _ _ hidne]
    · simp only [closeUpvLoop, hu0, hu0loc, if_neg hle]
      have hl0lt : l0 < last := not_le.mp hle
      rcases List.mem_cons.mp hid with rfl | hmem
      · obtain rfl : l = l0 := by
          rw [hl] at hl0
          injection hl0
        exact ⟨fun hle2 => absurd hle2 hle,
          fun _ => ⟨by trivial, List.mem_cons_self id rest⟩⟩
      · have hllt : l < l0 := hrel id hmem l0 l hl0 hl
        exact ⟨fun hle2 => absurd hle2 (not_le.mpr (hllt.trans hl0lt)),
          fun _ => ⟨by trivial, List.mem_cons_of_mem _ hmem⟩⟩

/-- `closeUpvalues(last)` at the VM level: under the interpreter's
open-list invariant, every open upvalue at or above `last` ends closed
over the stack value at its location and off the open list.  The
goto-dispatch `RETURN` calls this with the frame's slot base; the
switch-dispatch `RETURN` never calls it. -/
theorem closeUpvalues_closes (s : VM) (last : Nat)
    (hopen : ∀ id ∈ s.openUpvalues, ∃ l, locAt s.upvs id = some l)
    (hsort : s.openUpvalues.Pairwise (fun i j => ∀ li lj,
      locAt s.upvs i = some li → locAt s.upvs j = some lj → lj < li)) :
    ∀ id ∈ s.openUpvalues, ∀ l, locAt s.upvs id = some l → last ≤ l →
      (closeUpvalues s last).upvs.get? id =
        some ⟨none, s.stack.getD l .vNil⟩ ∧
      id ∉ (closeUpvalues s last).openUpvalues := by
  intro id hid l hl hle
  exact (closeUpvLoop_spec s.stack last s.openUpvalues s.upvs hopen hsort
    id hid l hl).1 hle

/-- C1: the claim states that every execution of `RETURN` that pops a
call frame closes all open upvalues at or above the returning frame's
slot base before popping it.  The computed-goto handler `do_RETURN`
does exactly that, but the switch-dispatch handler `OP_RETURN`
(vm.c:3733) omits the `closeUpvalues(frame->slots)` call: on
`returnBugState` — one open upvalue at stack slot 2, returning frame
based at slot 1 — the switch handler leaves the upvalue open and on the
open list, pointing above the new stack top, while the goto handler of
the same opcode closes it over the captured value. -/
theorem c1_return_close_upvalues_divergence :
    execRETURNswitch returnBugState =
      .ok { stack := [.vObj 0, .vInt 9], frames := [⟨0, 0, 0⟩],
            framesMax := 64, heap := [.hClosure 0, .hClosure 0],
            upvs := [⟨some 2, .vNil⟩], openUpvalues := [0], strings := [] } ∧
    execRETURNgoto returnBugState =
      .ok { stack := [.vObj 0, .vInt 9], frames := [⟨0, 0, 0⟩],
            framesMax := 64, heap := [.hClosure 0, .hClosure 0],
            upvs := [⟨none, .vInt 7⟩], openUpvalues := [], strings := [] } :=
  ⟨rfl, rfl⟩

/-- C9: `INT_TO_FLOAT` then `FLOAT_TO_INT` is the identity on every
integer in `[-2^53, 2^53]` representable as an int Value.  Under the
tagged encoding every such `int64` is representable and the handler
round trip restores the state exactly; under the NaN-boxed encoding the
representable ints are those the 48-bit payload round trip preserves,
and on them the masked pipeline is also the identity. -/
theorem c9_int_float_roundtrip :
    (∀ (s : VM) (rest : List Value) (i : Int), s.stack = rest ++ [.vInt i] →
      -(2 ^ 53) ≤ i → i ≤ 2 ^ 53 →
      (execINTTOFLOAT s).andThen execFLOATTOINT = .ok s) ∧
    (∀ i : Int, nanboxIntRepresentable i →
      -(2 ^ 53) ≤ i → i ≤ 2 ^ 53 → nanboxIntRoundTrip i = i) := by
  constructor
  · intro s rest i hstack h1 h2
    have hpeek : peekV s 0 = .vInt i := by
      rw [peekV_shape s rest [.vInt i] hstack 0 (by simp)]
      rfl
    have hstep1 : execINTTOFLOAT s =
        .ok { s with stack := rest ++ [.vFloat (.num ((i : Int) : ℚ))] } := by
      rw [show execINTTOFLOAT s =
            .ok (pushV (popN s 1)
              (.vFloat (.num ((intRoundB64 i : Int) : ℚ)))) from by
          simp [execINTTOFLOAT, hpeek]]
      rw [intRoundB64_eq_self i h1 h2, pushV_popN_one s rest (.vInt i) hstack]
    rw [hstep1]
    simp only [Res.andThen]
    have hpeek2 : peekV { s with stack := rest ++ [.vFloat (.num ((i : Int) : ℚ))] } 0 =
        .vFloat (.num ((i : Int) : ℚ)) := by
      rw [peekV_shape _ rest [.vFloat (.num ((i : Int) : ℚ))] rfl 0 (by simp)]
      rfl
    rw [show execFLOATTOINT { s with stack := rest ++ [.vFloat (.num ((i : Int) : ℚ))] } =
          .ok (pushV (popN { s with stack := rest ++ [.vFloat (.num ((i : Int) : ℚ))] } 1)
            (.vInt (castF2I (.num ((i : Int) : ℚ))))) from by
        simp [execFLOATTOINT, hpeek2]]
    rw [castF2I, truncRat_intCast,
      pushV_popN_one _ rest (.vFloat (.num ((i : Int) : ℚ))) rfl]
    rw [← hstack]
  · intro i h h1 h2
    rw [nanboxIntRoundTrip, intRoundB64_eq_self i h1 h2, castF2I,
      truncRat_intCast]
    exact h

theorem peek2_shape (s : VM) (rest : List Value) (a b : Value)
    (h : s.stack = rest ++ [a, b]) : peekV s 0 = b ∧ peekV s 1 = a := by
  constructor
  · rw [peekV_shape s rest [a, b] h 0 (by simp)]
    rfl
  · rw [peekV_shape s rest [a, b] h 1 (by simp)]
    rfl

/-- C4: `DIVIDE` on two ints yields the truncating quotient and errors
on a zero divisor; `MODULO` errors unless both operands are ints and
errors on a zero divisor, else yields the C truncated remainder.  The
`Int.tdiv` facts pin down that the quotient truncates toward zero. -/
theorem c4_divide_modulo_int :
    (∀ (fdivD : Flt → Flt → Flt) (s : VM) (rest : List Value) (a b : Int),
      s.stack = rest ++ [.vInt a, .vInt b] → b ≠ 0 →
      execDIVIDE fdivD s = .ok { s with stack := rest ++ [.vInt (Int.tdiv a b)] }) ∧
    (∀ (fdivD : Flt → Flt → Flt) (s : VM) (rest : List Value) (a : Int),
      s.stack = rest ++ [.vInt a, .vInt 0] →
      execDIVIDE fdivD s = .err "Division by zero.") ∧
    (Int.tdiv (-7) 2 = -3 ∧ Int.tdiv 7 (-2) = -3 ∧ Int.tdiv 7 2 = 3) ∧
    (∀ (s : VM) (rest : List Value) (a b : Int),
      s.stack = rest ++ [.vInt a, .vInt b] → b ≠ 0 →
      execMODULO s = .ok { s with stack := rest ++ [.vInt (Int.tmod a b)] }) ∧
    (∀ (s : VM) (rest : List Value) (a b : Value),
      s.stack = rest ++ [a, b] → isInt a = false ∨ isInt b = false →
      execMODULO s = .err "Operands must be integers for modulo.") ∧
    (∀ (s : VM) (rest : List Value) (a : Int),
      s.stack = rest ++ [.vInt a, .vInt 0] →
      execMODULO s = .err "Division by zero.") := by
  refine ⟨?_, ?_, ⟨by decide, by decide, by decide⟩, ?_, ?_, ?_⟩
  · intro fdivD s rest a b hstack hb
    obtain ⟨h0, h1⟩ := peek2_shape s rest _ _ hstack
    rw [execDIVIDE, h0, h1, if_pos (show (isInt (Value.vInt b) && isInt (Value.vInt a)) = true from rfl),
      if_neg (show ¬(asIntV (Value.vInt b) = 0) from hb),
      pushV_popN_two s rest _ _ hstack]
    rfl
  · intro fdivD s rest a hstack
    obtain ⟨h0, h1⟩ := peek2_shape s rest _ _ hstack
    rw [execDIVIDE, h0, h1, if_pos (show (isInt (Value.vInt 0) && isInt (Value.vInt a)) = true from rfl),
      if_pos (show asIntV (Value.vInt 0) = 0 from rfl)]
  · intro s rest a b hstack hb
    obtain ⟨h0, h1⟩ := peek2_shape s rest _ _ hstack
    rw [execMODULO, h0, h1,
      if_neg (show ¬((!isInt (Value.vInt b) || !isInt (Value.vInt a)) = true) from by simp [isInt]),
      if_neg (show ¬(asIntV (Value.vInt b) = 0) from hb),
      pushV_popN_two s rest _ _ hstack]
    rfl
  · intro s rest a b hstack hni
    obtain ⟨h0, h1⟩ := peek2_shape s rest _ _ hstack
    rw [execMODULO, h0, h1, if_pos]
    rcases hni with h | h <;> simp [h]
  · intro s rest a hstack
    obtain ⟨h0, h1⟩ := peek2_shape s rest _ _ hstack
    rw [execMODULO, h0, h1,
      if_neg (show ¬((!isInt (Value.vInt 0) || !isInt (Value.vInt a)) = true) from by simp [isInt]),
      if_pos (show asIntV (Value.vInt 0) = 0 from rfl)]

/-- Witness for C4: `7 / 2 = 3`, `7 / 0` errors, `7 % 2 = 1`,
`7.0 % 2` errors, `7 % 0` errors, on a minimal two-slot stack. -/
theorem c4_divide_modulo_int_witness :
    execDIVIDE (fun _ _ => .nan) ⟨[.vInt 7, .vInt 2], [], 64, [], [], [], []⟩ =
      .ok ⟨[.vInt 3], [], 64, [], [], [], []⟩ ∧
    execDIVIDE (fun _ _ => .nan) ⟨[.vInt 7, .vInt 0], [], 64, [], [], [], []⟩ =
      .err "Division by zero." ∧
    execMODULO ⟨[.vInt 7, .vInt 2], [], 64, [], [], [], []⟩ =
      .ok ⟨[.vInt 1], [], 64, [], [], [], []⟩ ∧
    execMODULO ⟨[.vFloat (.num 7), .vInt 2], [], 64, [], [], [], []⟩ =
      .err "Operands must be integers for modulo." ∧
    execMODULO ⟨[.vInt 7, .vInt 0], [], 64, [], [], [], []⟩ =
      .err "Division by zero." :=
  ⟨c4_divide_modulo_int.1 (fun _ _ => .nan) _ [] 7 2 rfl (by decide),
    ⟨c4_divide_modulo_int.2.1 (fun _ _ => .nan) _ [] 7 rfl,
      ⟨c4_divide_modulo_int.2.2.2.1 _ [] 7 2 rfl (by decide),
        ⟨c4_divide_modulo_int.2.2.2.2.1 _ [] (.vFloat (.num 7)) (.vInt 2) rfl
            (Or.inl rfl),
          c4_divide_modulo_int.2.2.2.2.2 _ [] 7 rfl⟩⟩⟩⟩

/-- C5: a `CALL argc` whose callee is a closure raises a runtime error
(and pushes no frame) when `argc` differs from the closure arity or the
frame stack has reached `FRAMES_MAX`; otherwise it pushes exactly one
frame whose slot base is `stackTop - argc - 1` (here `rest.length`, the
index of the callee slot). -/
theorem c5_call_closure :
    (∀ (natives : Nat → Nat → List Value → Value) (s : VM)
        (rest : List Value) (o : Nat) (args : List Value) (arity : Nat),
      s.stack = rest ++ Value.vObj o :: args →
      s.heap.get? o = some (.hClosure arity) → args.length ≠ arity →
      execCALL natives s args.length = .err "Expected %d arguments but got %d.") ∧
    (∀ (natives : Nat → Nat → List Value → Value) (s : VM)
        (rest : List Value) (o : Nat) (args : List Value) (arity : Nat),
      s.stack = rest ++ Value.vObj o :: args →
      s.heap.get? o = some (.hClosure arity) → args.length = arity →
      s.frames.length = s.framesMax →
      execCALL natives s args.length = .err "Stack overflow.") ∧
    (∀ (natives : Nat → Nat → List Value → Value) (s : VM)
        (rest : List Value) (o : Nat) (args : List Value) (arity : Nat),
      s.stack = rest ++ Value.vObj o :: args →
      s.heap.get? o = some (.hClosure arity) → args.length = arity →
      s.frames.length ≠ s.framesMax →
      execCALL natives s args.length =
        .ok { s with frames := s.frames ++ [⟨o, 0, rest.length⟩] }) := by
  have hpeek : ∀ (s : VM) (rest : List Value) (o : Nat) (args : List Value),
      s.stack = rest ++ Value.vObj o :: args →
      peekV s args.length = .vObj o := by
    intro s rest o args hstack
    rw [peekV_shape s rest (Value.vObj o :: args) hstack args.length (by simp)]
    have hidx : (Value.vObj o :: args).length - 1 - args.length = 0 := by
      simp
    rw [hidx]
    rfl
  refine ⟨?_, ?_, ?_⟩
  · intro natives s rest o args arity hstack hheap harity
    simp only [execCALL, hpeek s rest o args hstack, hheap]
    rw [if_pos harity]
  · intro natives s rest o args arity hstack hheap harity hmax
    simp only [execCALL, hpeek s rest o args hstack, hheap]
    rw [if_neg (show ¬(args.length ≠ arity) from fun h => h harity), if_pos hmax]
  · intro natives s rest o args arity hstack hheap harity hmax
    simp only [execCALL, hpeek s rest o args hstack, hheap]
    rw [if_neg (show ¬(args.length ≠ arity) from fun h => h harity), if_neg hmax]
    have hlen : s.stack.length - args.length - 1 = rest.length := by
      rw [hstack]
      simp only [List.length_append, List.length_cons]
      omega
    rw [hlen]

/-- Witness for C5: calling an arity-1 closure with 2 arguments errors;
with 1 argument at the frame cap errors with stack overflow; below the
cap it pushes the frame based at the callee slot (index 1). -/
theorem c5_call_closure_witness :
    execCALL (fun _ _ _ => .vNil)
      ⟨[.vNil, .vObj 0, .vInt 1, .vInt 2], [], 64, [.hClosure 1], [], [], []⟩ 2 =
      .err "Expected %d arguments but got %d." ∧
    execCALL (fun _ _ _ => .vNil)
      ⟨[.vNil, .vObj 0, .vInt 1], [⟨0, 0, 0⟩], 1, [.hClosure 1], [], [], []⟩ 1 =
      .err "Stack overflow." ∧
    execCALL (fun _ _ _ => .vNil)
      ⟨[.vNil, .vObj 0, .vInt 1], [⟨0, 0, 0⟩], 64, [.hClosure 1], [], [], []⟩ 1 =
      .ok ⟨[.vNil, .vObj 0, .vInt 1], [⟨0, 0, 0⟩, ⟨0, 0, 1⟩], 64, [.hClosure 1], [], [], []⟩ :=
  ⟨c5_call_closure.1 (fun _ _ _ => .vNil) _ [.vNil] 0 [.vInt 1, .vInt 2] 1 rfl rfl
      (by decide),
    ⟨c5_call_closure.2.1 (fun _ _ _ => .vNil) _ [.vNil] 0 [.vInt 1] 1 rfl rfl rfl rfl,
      c5_call_closure.2.2 (fun _ _ _ => .vNil) _ [.vNil] 0 [.vInt 1] 1 rfl rfl rfl
        (by decide)⟩⟩

/-- The element-collection loop of `OP_ARRAY`: on a stack shaped
`rest ++ vs ++ [array]`, appending `peek(count - j)` for
`j = 0 .. count - 1` collects exactly `vs`. -/
theorem foldl_peek_eq (t : VM) (rest vs : List Value) (x : Value)
    (h : t.stack = rest ++ vs ++ [x]) :
    (List.range vs.length).foldl
      (fun acc j => writeArray acc (peekV t (vs.length - j))) [] = vs := by
  rw [show (fun acc j => writeArray acc (peekV t (vs.length - j))) =
      (fun acc j => acc ++ [peekV t (vs.length - j)]) from rfl,
    foldl_append_singleton, List.nil_append]
  have hmap : (List.range vs.length).map (fun j => peekV t (vs.length - j)) =
      (List.range vs.length).map (fun j => vs.getD j .vNil) := by
    refine List.map_congr_left (fun j hj => ?_)
    have hj' := List.mem_range.mp hj
    rw [peekV_shape t rest (vs ++ [x]) (by rw [h, List.append_assoc])
      (vs.length - j) (by simp; omega)]
    have hidx : (vs ++ [x]).length - 1 - (vs.length - j) = j := by
      simp only [List.length_append, List.length_singleton]
      omega
    rw [hidx]
    simp [List.getD, List.getElem?_append_left hj']
  rw [hmap, map_getD_range]

/-- C6: `ARRAY n` executed after pushes of `v0 .. v_{n-1}` (deepest
first) pops those `n` values and pushes a freshly allocated array whose
element list is exactly `v0 .. v_{n-1}` — count `n`, element `i` equal
to `v_i`. -/
theorem c6_array_build :
    ∀ (s : VM) (rest vs : List Value), s.stack = rest ++ vs →
      execARRAY s vs.length =
        .ok { s with heap := s.heap ++ [.hArray vs],
                     stack := rest ++ [.vObj s.heap.length] } ∧
      (s.heap ++ [HObj.hArray vs]).get? s.heap.length = some (HObj.hArray vs) := by
  intro s rest vs hstack
  refine ⟨?_, by rw [List.get?_eq_getElem?, List.getElem?_concat_length]⟩
  simp only [execARRAY, pushV, popN]
  rw [foldl_peek_eq _ rest vs (.vObj s.heap.length)
    (by simp only []; rw [hstack, List.append_assoc])]
  rw [hstack]
  have hlen : ((rest ++ vs) ++ [Value.vObj s.heap.length]).length -
      (vs.length + 1) = rest.length := by
    simp only [List.length_append, List.length_singleton]
    omega
  rw [hlen]
  have htake : ((rest ++ vs) ++ [Value.vObj s.heap.length]).take rest.length =
      rest := by
    rw [List.append_assoc]
    exact List.take_left rest _
  rw [htake]
  have hset : (s.heap ++ [HObj.hArray []]).set s.heap.length (HObj.hArray vs) =
      s.heap ++ [HObj.hArray vs] := by
    simp [List.set_append_right]
  rw [hset]

/-- Witness for C6: building a two-element array from `[1, 2]`. -/
theorem c6_array_build_witness :
    execARRAY ⟨[.vInt 1, .vInt 2], [], 64, [], [], [], []⟩ 2 =
      .ok ⟨[.vObj 0], [], 64, [.hArray [.vInt 1, .vInt 2]], [], [], []⟩ ∧
    ([HObj.hArray [.vInt 1, .vInt 2]] : List HObj).get? 0 =
      some (HObj.hArray [.vInt 1, .vInt 2]) :=
  ⟨(c6_array_build ⟨[.vInt 1, .vInt 2], [], 64, [], [], [], []⟩ []
      [.vInt 1, .vInt 2] rfl).1,
    (c6_array_build ⟨[.vInt 1, .vInt 2], [], 64, [], [], [], []⟩ []
      [.vInt 1, .vInt 2] rfl).2⟩

/-- C10: on two numeric operands with a float among them, `DIVIDE`
performs the double division unconditionally — the divisor is never
checked, so a zero divisor produces the IEEE quotient, not a runtime
error; only the int/int path guards against zero. -/
theorem c10_float_divide_unchecked :
    ∀ (fdivD : Flt → Flt → Flt) (s : VM) (rest : List Value) (a b : Value),
      s.stack = rest ++ [a, b] → isNumber a = true → isNumber b = true →
      (isFloat a = true ∨ isFloat b = true) →
      execDIVIDE fdivD s =
        .ok { s with stack := rest ++ [.vFloat (fdivD (asNumberF a) (asNumberF b))] } := by
  intro fdivD s rest a b hstack hna hnb hf
  obtain ⟨h0, h1⟩ := peek2_shape s rest _ _ hstack
  have hints : (isInt b && isInt a) = false := by
    rcases hf with h | h
    · cases a <;> simp_all [isFloat, isInt]
    · cases b <;> simp_all [isFloat, isInt]
  rw [execDIVIDE, h0, h1, if_neg (by rw [hints]; exact Bool.false_ne_true),
    if_pos (by rw [hnb, hna]; rfl)]
  simp only [pushV_popN_two s rest a b hstack]

/-- Witness for C10: float division by float zero yields the double
quotient (here the model parameter returns NaN) and no error. -/
theorem c10_float_divide_unchecked_witness :
    execDIVIDE (fun _ _ => .nan)
      ⟨[.vFloat (.num 1), .vFloat (.num 0)], [], 64, [], [], [], []⟩ =
      .ok ⟨[.vFloat .nan], [], 64, [], [], [], []⟩ :=
  c10_float_divide_unchecked (fun _ _ => .nan) _ [] (.vFloat (.num 1))
    (.vFloat (.num 0)) rfl rfl rfl (Or.inl rfl)
theorem c9_int_float_roundtrip_witness :
    (execINTTOFLOAT ⟨[.vInt 5], [], 64, [], [], [], []⟩).andThen execFLOATTOINT =
      .ok ⟨[.vInt 5], [], 64, [], [], [], []⟩ ∧
    nanboxIntRoundTrip 5 = 5 :=
  ⟨c9_int_float_roundtrip.1 ⟨[.vInt 5], [], 64, [], [], [], []⟩ [] 5 rfl
      (by decide) (by decide),
    c9_int_float_roundtrip.2 5 (by rfl) (by decide) (by decide)⟩

theorem feq_comm (x y : Flt) : x.feq y = y.feq x := by
  cases x <;> cases y <;> simp [Flt.feq] <;> exact eq_comm

theorem valuesEqual_int_float (i : Int) (f : Flt) :
    valuesEqual (.vInt i) (.vFloat f) = true ↔
      f = .num ((intRoundB64 i : Int) : ℚ) := by
  cases f <;>
    simp [valuesEqual, vtag, isNumber, isInt, isFloat, asNumberF, Flt.feq, eq_comm]

/-- C2 counterexample: `valuesEqual` is not reflexive — a NaN float
value (producible at runtime, e.g. by `0.0 / 0.0`) is unequal to
itself; and int↔float equality is not "equal numeric value" — the int
`2^53 + 1` compares equal to the float `2^53.0` because the comparison
converts the int with the rounding C cast `(double)`. -/
theorem c2_counterexample :
    valuesEqual (.vFloat .nan) (.vFloat .nan) = false ∧
    valuesEqual (.vInt (2 ^ 53 + 1)) (.vFloat (.num ((2 ^ 53 : Int) : ℚ))) = true ∧
    ((2 ^ 53 + 1 : Int) : ℚ) ≠ ((2 ^ 53 : Int) : ℚ) := by
  refine ⟨rfl, ?_, by norm_num⟩
  have h : intRoundB64 (2 ^ 53 + 1) = 2 ^ 53 := by decide
  rw [valuesEqual_int_float, h]

/-- C2 amended: `valuesEqual` is symmetric; it is reflexive on every
value except float NaN; it is transitive restricted to ints, to floats,
and to object references (interned strings compare by pointer); values
of distinct type tags are unequal unless both are numbers; and an int
compares equal to a float exactly when the float is the rounded double
conversion of the int — which on `[-2^53, 2^53]` means exactly equal
numeric value. -/
theorem c2_amended :
    (∀ a b, valuesEqual a b = valuesEqual b a) ∧
    (∀ a, isNaNV a = false → valuesEqual a a = true) ∧
    (∀ x y z : Int, valuesEqual (.vInt x) (.vInt y) = true →
      valuesEqual (.vInt y) (.vInt z) = true →
      valuesEqual (.vInt x) (.vInt z) = true) ∧
    (∀ x y z : Flt, valuesEqual (.vFloat x) (.vFloat y) = true →
      valuesEqual (.vFloat y) (.vFloat z) = true →
      valuesEqual (.vFloat x) (.vFloat z) = true) ∧
    (∀ x y z : Nat, valuesEqual (.vObj x) (.vObj y) = true →
      valuesEqual (.vObj y) (.vObj z) = true →
      valuesEqual (.vObj x) (.vObj z) = true) ∧
    (∀ a b, vtag a ≠ vtag b → (isNumber a = false ∨ isNumber b = false) →
      valuesEqual a b = false) ∧
    (∀ i f, valuesEqual (.vInt i) (.vFloat f) = true ↔
      f = .num ((intRoundB64 i : Int) : ℚ)) ∧
    (∀ (i : Int) (q : ℚ), -(2 ^ 53) ≤ i → i ≤ 2 ^ 53 →
      (valuesEqual (.vInt i) (.vFloat (.num q)) = true ↔ q = (i : ℚ))) := by
  refine ⟨?_, ?_, ?_, ?_, ?_, ?_, valuesEqual_int_float, ?_⟩
  · intro a b
    cases a <;> cases b <;>
      simp [valuesEqual, vtag, isNumber, isInt, isFloat, feq_comm] <;>
      exact eq_comm
  · intro a ha
    cases a with
    | vFloat f =>
      cases f with
      | nan => simp [isNaNV] at ha
      | inf s => simp [valuesEqual, Flt.feq]
      | num q => simp [valuesEqual, Flt.feq]
    | vBool b => simp [valuesEqual]
    | vNil => simp [valuesEqual]
    | vInt i => simp [valuesEqual]
    | vPtr p => simp [valuesEqual]
    | vObj o => simp [valuesEqual]
  · intro x y z hxy hyz
    simp only [valuesEqual, vtag] at *
    simp at hxy hyz
    simp [hxy, hyz]
  · intro x y z hxy hyz
    simp only [valuesEqual, vtag] at *
    simp only [ne_eq, not_true_eq_false, if_false] at *
    cases x <;> cases y <;> cases z <;> simp_all [Flt.feq]
  · intro x y z hxy hyz
    simp only [valuesEqual, vtag] at *
    simp at hxy hyz
    simp [hxy, hyz]
  · intro a b htag hn
    cases a <;> cases b <;>
      simp_all [valuesEqual, vtag, isNumber, isInt, isFloat]
  · intro i q h1 h2
    rw [valuesEqual_int_float, intRoundB64_eq_self i h1 h2]
    simp

/-- Witness for C2 amended: reflexivity at the non-NaN value `5` and
the int↔float comparison at `5` versus `5.0`. -/
theorem c2_amended_witness :
    valuesEqual (.vInt 5) (.vInt 5) = true ∧
    (valuesEqual (.vInt 5) (.vFloat (.num 5)) = true ↔ (5 : ℚ) = ((5 : Int) : ℚ)) :=
  ⟨c2_amended.2.1 (.vInt 5) rfl,
    c2_amended.2.2.2.2.2.2.2 5 5 (by decide) (by decide)⟩

theorem takeString_stack (s : VM) (cs : List Char) :
    (takeString s cs).1.stack = s.stack := by
  unfold takeString
  split <;> rfl

theorem findString_eq_none (s : VM) (cs : List Char)
    (h : findString s cs = none) :
    s.strings.find? (fun e => e.1 == cs) = none := by
  rw [findString] at h
  exact Option.map_eq_none'.mp h

theorem findString_takeString (s : VM) (cs : List Char) :
    findString (takeString s cs).1 cs = some (takeString s cs).2 := by
  unfold takeString
  split
  · next o h => exact h
  · next h =>
    rw [findString, List.find?_append, findString_eq_none s cs h]
    simp

theorem mem_of_findString (s : VM) (cs : List Char) (o : Nat)
    (h : findString s cs = some o) : (cs, o) ∈ s.strings := by
  rw [findString] at h
  obtain ⟨e, hfind, he2⟩ := Option.map_eq_some'.mp h
  have hmem := List.mem_of_find?_eq_some hfind
  have hpred := List.find?_some hfind
  have he1 : e.1 = cs := by
    exact eq_of_beq hpred
  have : e = (cs, o) := Prod.ext he1 he2
  rw [← this]
  exact hmem

theorem contentsOfS_takeString (s : VM) (cs : List Char) (hwf : StringsWF s) :
    contentsOfS (takeString s cs).1 (takeString s cs).2 = some cs := by
  unfold takeString
  split
  · next o h =>
    have hmem := mem_of_findString s cs o h
    have hh := hwf.1 _ hmem
    simp only [contentsOfS] at *
    rw [hh]
  · next h =>
    simp only [contentsOfS]
    rw [List.get?_eq_getElem?, List.getElem?_concat_length]

theorem StringsWF_takeString (s : VM) (cs : List Char) (hwf : StringsWF s) :
    StringsWF (takeString s cs).1 := by
  unfold takeString
  split
  · exact hwf
  · next h =>
    constructor
    · intro e he
      simp only [List.mem_append, List.mem_singleton] at he
      rcases he with he | he
      · have h2 := hwf.1 e he
        rw [List.get?_eq_getElem?] at h2
        have hlt : e.2 < s.heap.length := (List.getElem?_eq_some.mp h2).1
        simp only [List.get?_eq_getElem?]
        rw [List.getElem?_append_left hlt]
        exact h2
      · subst he
        simp only [List.get?_eq_getElem?]
        rw [List.getElem?_concat_length]
    · rw [List.map_append]
      rw [List.nodup_append]
      refine ⟨hwf.2, List.nodup_singleton _, ?_⟩
      intro x hx hx2
      simp only [List.map_cons, List.map_nil, List.mem_singleton] at hx2
      obtain ⟨e, he, hfst⟩ := List.mem_map.mp hx
      have h3 := List.find?_eq_none.mp (findString_eq_none s cs h) e he
      exact h3 (by rw [hfst, hx2]; simp)

theorem contentsOfS_takeString_mono (s : VM) (cs : List Char) (o : Nat)
    (c : List Char) (h : contentsOfS s o = some c) :
    contentsOfS (takeString s cs).1 o = some c := by
  unfold takeString
  split
  · exact h
  · simp only [contentsOfS] at h ⊢
    cases hh : s.heap.get? o with
    | none => rw [hh] at h; simp at h
    | some x =>
      rw [hh] at h
      rw [List.get?_eq_getElem?] at hh
      have hlt : o < s.heap.length := (List.getElem?_eq_some.mp hh).1
      rw [List.get?_eq_getElem?, List.getElem?_append_left hlt, ← List.get?_eq_getElem?] at *
      rw [hh]
      exact h

theorem valueToString_stack (ff : Flt → List Char) (s : VM) (v : Value) :
    (valueToString ff s v).1.stack = s.stack := by
  cases v with
  | vObj o =>
    unfold valueToString
    cases h : contentsOfS s o <;> simp [h, copyString, takeString_stack]
  | vBool b => simp [valueToString, copyString, takeString_stack]
  | vNil => simp [valueToString, copyString, takeString_stack]
  | vInt i => simp [valueToString, copyString, takeString_stack]
  | vFloat f => simp [valueToString, copyString, takeString_stack]
  | vPtr p => simp [valueToString, copyString, takeString_stack]

theorem valueToString_WF (ff : Flt → List Char) (s : VM) (v : Value)
    (hwf : StringsWF s) : StringsWF (valueToString ff s v).1 := by
  cases v with
  | vObj o =>
    unfold valueToString
    cases h : contentsOfS s o <;>
      simp [h, copyString, StringsWF_takeString s _ hwf]
    exact hwf
  | vBool b => exact StringsWF_takeString s _ hwf
  | vNil => exact StringsWF_takeString s _ hwf
  | vInt i => exact StringsWF_takeString s _ hwf
  | vFloat f => exact StringsWF_takeString s _ hwf
  | vPtr p => exact StringsWF_takeString s _ hwf

/-- A result of the shape both concatenation paths of `OP_ADD` produce —
intern `cs`, pop the two operands, push the interned object — satisfies
the interned-string facts: the pushed object is the intern-table entry
for `cs` and its contents are `cs`. -/
theorem intern_push_facts (t d : VM) (cs : List Char) (rest : List Value)
    (a b : Value) (hwf : StringsWF t) (hstk : t.stack = rest ++ [a, b]) :
    (Res.ok (pushV (popN (takeString t cs).1 2)
        (.vObj (takeString t cs).2))).isOkB = true ∧
    (findString ((Res.ok (pushV (popN (takeString t cs).1 2)
        (.vObj (takeString t cs).2))).stateD d) cs).isSome = true ∧
    ((Res.ok (pushV (popN (takeString t cs).1 2)
        (.vObj (takeString t cs).2))).stateD d).stack =
      rest ++ [.vObj ((findString ((Res.ok (pushV (popN (takeString t cs).1 2)
        (.vObj (takeString t cs).2))).stateD d) cs).getD 0)] ∧
    contentsOfS ((Res.ok (pushV (popN (takeString t cs).1 2)
        (.vObj (takeString t cs).2))).stateD d)
      ((findString ((Res.ok (pushV (popN (takeString t cs).1 2)
        (.vObj (takeString t cs).2))).stateD d) cs).getD 0) = some cs := by
  have hstk2 : (takeString t cs).1.stack = rest ++ [a, b] := by
    rw [takeString_stack]
    exact hstk
  refine ⟨rfl, ?_, ?_, ?_⟩
  · show (findString (takeString t cs).1 cs).isSome = true
    rw [findString_takeString]
    rfl
  · show (pushV (popN (takeString t cs).1 2) (.vObj (takeString t cs).2)).stack =
      rest ++ [.vObj ((findString (takeString t cs).1 cs).getD 0)]
    rw [findString_takeString,
      pushV_popN_two (takeString t cs).1 rest a b hstk2]
    rfl
  · show contentsOfS (takeString t cs).1
      ((findString (takeString t cs).1 cs).getD 0) = some cs
    rw [findString_takeString]
    exact contentsOfS_takeString t cs hwf

/-- The mixed arm of `OP_ADD` (`concatenateAny`): exactly one operand a
string; both are stringified in execution order and the concatenation
is interned and pushed. -/
theorem execADD_mixed (ff : Flt → List Char) (faddD : Flt → Flt → Flt)
    (s : VM) (rest : List Value) (a b : Value) (hwf : StringsWF s)
    (hstack : s.stack = rest ++ [a, b])
    (hne : isString s a ≠ isString s b) :
    (execADD ff faddD s).isOkB = true ∧
    (findString ((execADD ff faddD s).stateD s)
      ((valueToString ff (valueToString ff s b).1 a).2 ++
        (valueToString ff s b).2)).isSome = true ∧
    ((execADD ff faddD s).stateD s).stack =
      rest ++ [.vObj ((findString ((execADD ff faddD s).stateD s)
        ((valueToString ff (valueToString ff s b).1 a).2 ++
          (valueToString ff s b).2)).getD 0)] ∧
    contentsOfS ((execADD ff faddD s).stateD s)
      ((findString ((execADD ff faddD s).stateD s)
        ((valueToString ff (valueToString ff s b).1 a).2 ++
          (valueToString ff s b).2)).getD 0) =
      some ((valueToString ff (valueToString ff s b).1 a).2 ++
        (valueToString ff s b).2) := by
  obtain ⟨h0, h1⟩ := peek2_shape s rest _ _ hstack
  have hrun : execADD ff faddD s =
      .ok (pushV (popN (takeString (valueToString ff (valueToString ff s b).1 a).1
          ((valueToString ff (valueToString ff s b).1 a).2 ++
            (valueToString ff s b).2)).1 2)
        (.vObj (takeString (valueToString ff (valueToString ff s b).1 a).1
          ((valueToString ff (valueToString ff s b).1 a).2 ++
            (valueToString ff s b).2)).2)) := by
    rw [execADD, h0, h1,
      if_neg (fun hc => by
        have h2 : isString s b = true ∧ isString s a = true := by
          simpa using hc
        exact hne (by rw [h2.2, h2.1])),
      if_pos (by
        cases hA : isString s a <;> cases hB : isString s b <;> simp_all),
      concatenateAny, h0, h1]
  have hwf2 : StringsWF (valueToString ff (valueToString ff s b).1 a).1 :=
    valueToString_WF ff _ a (valueToString_WF ff s b hwf)
  have hstk2 : (valueToString ff (valueToString ff s b).1 a).1.stack =
      rest ++ [a, b] := by
    rw [valueToString_stack, valueToString_stack]
    exact hstack
  rw [hrun]
  exact intern_push_facts _ s _ rest a b hwf2 hstk2

/-- C3: the `OP_ADD` dispatch.  Two strings concatenate into an
interned string whose contents are the concatenation of theirs; exactly
one string stringifies the other operand and concatenates (interned,
with `valueToString` the embedded stringification — in particular an
int left operand contributes its decimal rendering); two ints push the
int sum; two numbers with a float among them push the double sum; and
any other pair is the runtime error. -/
theorem c3_add_dispatch (ff : Flt → List Char) (faddD : Flt → Flt → Flt) :
    (∀ (s : VM) (rest : List Value) (oa ob : Nat) (ca cb : List Char),
      StringsWF s → s.stack = rest ++ [.vObj oa, .vObj ob] →
      contentsOfS s oa = some ca → contentsOfS s ob = some cb →
      (execADD ff faddD s).isOkB = true ∧
      (findString ((execADD ff faddD s).stateD s) (ca ++ cb)).isSome = true ∧
      ((execADD ff faddD s).stateD s).stack =
        rest ++ [.vObj ((findString ((execADD ff faddD s).stateD s)
          (ca ++ cb)).getD 0)] ∧
      contentsOfS ((execADD ff faddD s).stateD s)
        ((findString ((execADD ff faddD s).stateD s) (ca ++ cb)).getD 0) =
        some (ca ++ cb)) ∧
    (∀ (s : VM) (rest : List Value) (i : Int) (ob : Nat) (cb : List Char),
      StringsWF s → s.stack = rest ++ [.vInt i, .vObj ob] →
      contentsOfS s ob = some cb →
      (execADD ff faddD s).isOkB = true ∧
      (findString ((execADD ff faddD s).stateD s)
        ((toString i).data ++ cb)).isSome = true ∧
      ((execADD ff faddD s).stateD s).stack =
        rest ++ [.vObj ((findString ((execADD ff faddD s).stateD s)
          ((toString i).data ++ cb)).getD 0)] ∧
      contentsOfS ((execADD ff faddD s).stateD s)
        ((findString ((execADD ff faddD s).stateD s)
          ((toString i).data ++ cb)).getD 0) = some ((toString i).data ++ cb)) ∧
    (∀ (s : VM) (rest : List Value) (x y : Int),
      s.stack = rest ++ [.vInt x, .vInt y] →
      execADD ff faddD s = .ok { s with stack := rest ++ [.vInt (x + y)] }) ∧
    (∀ (s : VM) (rest : List Value) (a b : Value),
      s.stack = rest ++ [a, b] →
      isString s a = false → isString s b = false →
      isNumber a = true → isNumber b = true →
      (isFloat a = true ∨ isFloat b = true) →
      execADD ff faddD s =
        .ok { s with
          stack := rest ++ [.vFloat (faddD (asNumberF a) (asNumberF b))] }) ∧
    (∀ (s : VM) (rest : List Value) (a b : Value),
      s.stack = rest ++ [a, b] →
      isString s a = false → isString s b = false →
      (isNumber a = false ∨ isNumber b = false) →
      execADD ff faddD s = .err "Operands must be two numbers or two strings.") := by
  refine ⟨?_, ?_, ?_, ?_, ?_⟩
  · intro s rest oa ob ca cb hwf hstack hca hcb
    obtain ⟨h0, h1⟩ := peek2_shape s rest _ _ hstack
    have hrun : execADD ff faddD s =
        .ok (pushV (popN (takeString s (ca ++ cb)).1 2)
          (.vObj (takeString s (ca ++ cb)).2)) := by
      rw [execADD, h0, h1,
        if_pos (by simp [isString, hca, hcb]), concatenate, h0, h1]
      simp only [strContents, hca, hcb, Option.getD_some]
    rw [hrun]
    exact intern_push_facts s s (ca ++ cb) rest _ _ hwf hstack
  · intro s rest i ob cb hwf hstack hcb
    have hrb : valueToString ff s (.vObj ob) = (s, cb) := by
      simp [valueToString, hcb]
    have hne : isString s (.vInt i) ≠ isString s (.vObj ob) := by
      simp [isString, hcb]
    have hmix := execADD_mixed ff faddD s rest (.vInt i) (.vObj ob) hwf hstack hne
    rw [hrb] at hmix
    exact hmix
  · intro s rest x y hstack
    obtain ⟨h0, h1⟩ := peek2_shape s rest _ _ hstack
    rw [execADD, h0, h1, if_neg (by simp [isString]), if_neg (by simp [isString]),
      if_pos (show (isInt (Value.vInt y) && isInt (Value.vInt x)) = true from rfl)]
    simp only [pushV_popN_two s rest (Value.vInt x) (Value.vInt y) hstack]
    rfl
  · intro s rest a b hstack hsa hsb hna hnb hf
    obtain ⟨h0, h1⟩ := peek2_shape s rest _ _ hstack
    have hints : (isInt b && isInt a) = false := by
      rcases hf with h | h
      · cases a <;> simp_all [isFloat, isInt]
      · cases b <;> simp_all [isFloat, isInt]
    rw [execADD, h0, h1, if_neg (by simp [hsa, hsb]), if_neg (by simp [hsa, hsb]),
      if_neg (by rw [hints]; exact Bool.false_ne_true),
      if_pos (by rw [hnb, hna]; rfl)]
    simp only [pushV_popN_two s rest a b hstack]
  · intro s rest a b hstack hsa hsb hn
    obtain ⟨h0, h1⟩ := peek2_shape s rest _ _ hstack
    have hints : (isInt b && isInt a) = false := by
      rcases hn with h | h
      · cases a <;> simp_all [isNumber, isInt, isFloat]
      · cases b <;> simp_all [isNumber, isInt, isFloat]
    have hnums : (isNumber b && isNumber a) = false := by
      rcases hn with h | h <;> simp [h]
    rw [execADD, h0, h1, if_neg (by simp [hsa, hsb]), if_neg (by simp [hsa, hsb]),
      if_neg (by rw [hints]; exact Bool.false_ne_true),
      if_neg (by rw [hnums]; exact Bool.false_ne_true)]

/-- Witness for C3: `"a" + "b"` succeeds with an interned result on a
two-string stack, and `2 + 3 = 5` on two ints. -/
theorem c3_add_dispatch_witness :
    (execADD (fun _ => []) (fun _ _ => Flt.nan)
      ⟨[.vObj 0, .vObj 1], [], 64, [.hString ['a'], .hString ['b']], [], [],
        [(['a'], 0), (['b'], 1)]⟩).isOkB = true ∧
    execADD (fun _ => []) (fun _ _ => Flt.nan)
      ⟨[.vInt 2, .vInt 3], [], 64, [], [], [], []⟩ =
      .ok ⟨[.vInt 5], [], 64, [], [], [], []⟩ :=
  ⟨((c3_add_dispatch (fun _ => []) (fun _ _ => Flt.nan)).1
      ⟨[.vObj 0, .vObj 1], [], 64, [.hString ['a'], .hString ['b']], [], [],
        [(['a'], 0), (['b'], 1)]⟩ [] 0 1 ['a'] ['b']
      (by constructor
          · intro e he
            simp only [List.mem_cons, List.not_mem_nil, or_false] at he
            rcases he with rfl | rfl <;> rfl
          · decide)
      rfl rfl rfl).1,
    (c3_add_dispatch (fun _ => []) (fun _ _ => Flt.nan)).2.2.1
      ⟨[.vInt 2, .vInt 3], [], 64, [], [], [], []⟩ [] 2 3 rfl⟩

theorem emitByte_errors (c : CompilerState) (b : Nat) :
    (emitByte c b).errors = c.errors := rfl

theorem emitByte_length (c : CompilerState) (b : Nat) :
    (emitByte c b).chunk.code.length = c.chunk.code.length + 1 := by
  simp [emitByte, writeChunk]

theorem emitBytesList_spec (bytes : List Nat) (c : CompilerState) :
    (emitBytesList c bytes).errors = c.errors ∧
    (emitBytesList c bytes).chunk.code.length =
      c.chunk.code.length + bytes.length := by
  induction bytes generalizing c with
  | nil => simp [emitBytesList]
  | cons x xs ih =>
    have hx : emitBytesList c (x :: xs) = emitBytesList (emitByte c x) xs := rfl
    obtain ⟨h1, h2⟩ := ih (emitByte c x)
    refine ⟨by rw [hx, h1, emitByte_errors], ?_⟩
    rw [hx, h2, emitByte_length, List.length_cons]
    omega

/-- C7 counterexample: chunk length alone never fails compilation —
emitting 65 600 code bytes (a chunk longer than 65 535 bytes) through
the compiler's byte-emission path records no error at all, refuting
"chunks longer than 65 535 bytes must fail compilation with that
error". -/
theorem c7_counterexample :
    65535 < (emitBytesList initCompiler (List.replicate 65600 0)).chunk.code.length ∧
    (emitBytesList initCompiler (List.replicate 65600 0)).errors = [] := by
  obtain ⟨h1, h2⟩ := emitBytesList_spec (List.replicate 65600 0) initCompiler
  constructor
  · rw [h2, List.length_replicate]
    norm_num [initCompiler]
  · rw [h1]
    rfl

/-- C7 amended: `patchJump` records "Too much code to jump over."
exactly when the forward span `count - offset - 2` exceeds 65 535 (and
writes the 16-bit big-endian delta in either case); `emitLoop` records
"Loop body too large." exactly when the backward delta exceeds 65 535;
and the byte-emission path itself is unbounded — emitting any byte
sequence never records an error, whatever length the chunk reaches. -/
theorem c7_amended :
    (∀ (c : CompilerState) (offset : Nat),
      ((c.chunk.code.length : Int) - offset - 2) ≤ 65535 →
      (patchJump c offset).errors = c.errors) ∧
    (∀ (c : CompilerState) (offset : Nat),
      65535 < ((c.chunk.code.length : Int) - offset - 2) →
      (patchJump c offset).errors = c.errors ++ ["Too much code to jump over."]) ∧
    (∀ (c : CompilerState) (loopStart : Nat),
      65535 < ((c.chunk.code.length : Int) + 1 - loopStart + 2) →
      (emitLoop c loopStart).errors = c.errors ++ ["Loop body too large."]) ∧
    (∀ (c : CompilerState) (loopStart : Nat),
      ((c.chunk.code.length : Int) + 1 - loopStart + 2) ≤ 65535 →
      (emitLoop c loopStart).errors = c.errors) ∧
    (∀ (c : CompilerState) (bytes : List Nat),
      (emitBytesList c bytes).errors = c.errors ∧
      (emitBytesList c bytes).chunk.code.length =
        c.chunk.code.length + bytes.length) := by
  refine ⟨?_, ?_, ?_, ?_, fun c bytes => emitBytesList_spec bytes c⟩
  · intro c offset h
    simp only [patchJump]
    split
    · next hc => exact absurd hc (by omega)
    · rfl
  · intro c offset h
    simp only [patchJump]
    split
    · rfl
    · next hc => exact absurd h (by omega)
  · intro c loopStart h
    simp only [emitLoop]
    split
    · rfl
    · next hc =>
      rw [emitByte_length] at hc
      exact absurd h (by push_cast at hc ⊢; omega)
  · intro c loopStart h
    simp only [emitLoop]
    split
    · next hc =>
      rw [emitByte_length] at hc
      exact absurd hc (by push_cast at h ⊢; omega)
    · rfl

/-- Witness for C7 amended: patching a 0-byte span in a 3-byte chunk
records no error, a small loop records no error, and emitting three
bytes grows the chunk without error. -/
theorem c7_amended_witness :
    (patchJump ⟨⟨[0, 0, 0], [0, 0, 0]⟩, []⟩ 1).errors = [] ∧
    (emitLoop ⟨⟨[0, 0, 0], [0, 0, 0]⟩, []⟩ 0).errors = [] ∧
    ((emitBytesList ⟨⟨[], []⟩, []⟩ [1, 2, 3]).errors = [] ∧
      (emitBytesList ⟨⟨[], []⟩, []⟩ [1, 2, 3]).chunk.code.length = 0 + 3) :=
  ⟨c7_amended.1 ⟨⟨[0, 0, 0], [0, 0, 0]⟩, []⟩ 1 (by decide),
    ⟨c7_amended.2.2.2.1 ⟨⟨[0, 0, 0], [0, 0, 0]⟩, []⟩ 0 (by decide),
      c7_amended.2.2.2.2 ⟨⟨[], []⟩, []⟩ [1, 2, 3]⟩⟩

theorem checkKeyword_ne (s : List Char) (start : Nat) (rest : List Char)
    (t : TokenType) (h : checkKeyword s start rest t ≠ .identifier) :
    checkKeyword s start rest t = t ∧ s.drop start = rest := by
  rw [checkKeyword] at h ⊢
  split at h
  · next hc =>
    rw [if_pos hc]
    exact ⟨rfl, hc.2⟩
  · exact absurd rfl h

theorem kwClose1 (c0 : Char) (rest0 rest : List Char) (kw t : TokenType)
    (h : checkKeyword (c0 :: rest0) 1 rest kw = t) (hne : t ≠ .identifier) :
    rest0 = rest ∧ t = kw := by
  obtain ⟨heq, hdrop⟩ := checkKeyword_ne _ _ _ _ (by rw [h]; exact hne)
  simp only [List.drop_succ_cons, List.drop_zero] at hdrop
  exact ⟨hdrop, h ▸ heq⟩

theorem kwClose2 (c0 c1 : Char) (tl rest : List Char) (kw t : TokenType)
    (h : checkKeyword (c0 :: c1 :: tl) 2 rest kw = t) (hne : t ≠ .identifier) :
    tl = rest ∧ t = kw := by
  obtain ⟨heq, hdrop⟩ := checkKeyword_ne _ _ _ _ (by rw [h]; exact hne)
  simp only [List.drop_succ_cons, List.drop_zero] at hdrop
  exact ⟨hdrop, h ▸ heq⟩

set_option maxHeartbeats 2000000 in
/-- The trie of `identifierType` recognizes no words beyond `kwPairs`:
any identifier classified as a reserved word is one of the table's
entries. -/
theorem identifierType_mem (s : List Char) (t : TokenType)
    (h : identifierType s = t) (hne : t ≠ .identifier) : (s, t) ∈ kwPairs := by
  cases s with
  | nil =>
    rw [identifierType.eq_def] at h
    exact (hne h.symm).elim
  | cons c0 rest0 =>
    rw [identifierType, identKwBranch] at h
    by_cases h0 : c0 = 'a'
    · subst h0
      rw [if_pos rfl] at h
      obtain ⟨h1, h2⟩ := kwClose1 _ _ _ _ _ h hne
      subst h1
      subst h2
      decide
    rw [if_neg h0] at h
    by_cases h1 : c0 = 'b'
    · subst h1
      rw [if_pos rfl] at h
      cases rest0 with
      | nil =>
        rw [if_neg (by simp), if_neg (by simp), if_neg (by simp)] at h
        exact (hne h.symm).elim
      | cons c1 tl =>
        by_cases hb1 : c1 = 'o'
        · subst hb1
          rw [if_pos (show ('o' :: tl).head? = some 'o' from rfl)] at h
          obtain ⟨h2, h3⟩ := kwClose2 _ _ _ _ _ _ h hne
          subst h2
          subst h3
          decide
        rw [if_neg (by simpa using hb1)] at h
        by_cases hb2 : c1 = 'r'
        · subst hb2
          rw [if_pos (show ('r' :: tl).head? = some 'r' from rfl)] at h
          obtain ⟨h2, h3⟩ := kwClose2 _ _ _ _ _ _ h hne
          subst h2
          subst h3
          decide
        rw [if_neg (by simpa using hb2)] at h
        by_cases hb3 : c1 = 'y'
        · subst hb3
          rw [if_pos (show ('y' :: tl).head? = some 'y' from rfl)] at h
          obtain ⟨h2, h3⟩ := kwClose2 _ _ _ _ _ _ h hne
          subst h2
          subst h3
          decide
        rw [if_neg (by simpa using hb3)] at h
        exact (hne h.symm).elim
    rw [if_neg h1] at h
    by_cases h2 : c0 = 'c'
    · subst h2
      rw [if_pos rfl] at h
      obtain ⟨ha, hb⟩ := kwClose1 _ _ _ _ _ h hne
      subst ha
      subst hb
      decide
    rw [if_neg h2] at h
    by_cases h3 : c0 = 'e'
    · subst h3
      rw [if_pos rfl] at h
      cases rest0 with
      | nil =>
        rw [if_neg (by simp), if_neg (by simp)] at h
        exact (hne h.symm).elim
      | cons c1 tl =>
        by_cases he1 : c1 = 'l'
        · subst he1
          rw [if_pos (show ('l' :: tl).head? = some 'l' from rfl)] at h
          obtain ⟨ha, hb⟩ := kwClose2 _ _ _ _ _ _ h hne
          subst ha
          subst hb
          decide
        rw [if_neg (by simpa using he1)] at h
        by_cases he2 : c1 = 'x'
        · subst he2
          rw [if_pos (show ('x' :: tl).head? = some 'x' from rfl)] at h
          obtain ⟨ha, hb⟩ := kwClose2 _ _ _ _ _ _ h hne
          subst ha
          subst hb
          decide
        rw [if_neg (by simpa using he2)] at h
        exact (hne h.symm).elim
    rw [if_neg h3] at h
    by_cases h4 : c0 = 'f'
    · subst h4
      rw [if_pos rfl] at h
      cases rest0 with
      | nil =>
        rw [if_neg (by simp), if_neg (by simp), if_neg (by simp)] at h
        exact (hne h.symm).elim
      | cons c1 tl =>
        by_cases hf1 : c1 = 'a'
        · subst hf1
          rw [if_pos (show ('a' :: tl).head? = some 'a' from rfl)] at h
          obtain ⟨ha, hb⟩ := kwClose2 _ _ _ _ _ _ h hne
          subst ha
          subst hb
          decide
        rw [if_neg (by simpa using hf1)] at h
        by_cases hf2 : c1 = 'l'
        · subst hf2
          rw [if_pos (show ('l' :: tl).head? = some 'l' from rfl)] at h
          obtain ⟨ha, hb⟩ := kwClose2 _ _ _ _ _ _ h hne
          subst ha
          subst hb
          decide
        rw [if_neg (by simpa using hf2)] at h
        by_cases hf3 : c1 = 'o'
        · subst hf3
          rw [if_pos (show ('o' :: tl).head? = some 'o' from rfl)] at h
          obtain ⟨ha, hb⟩ := kwClose2 _ _ _ _ _ _ h hne
          subst ha
          subst hb
          decide
        rw [if_neg (by simpa using hf3)] at h
        exact (hne h.symm).elim
    rw [if_neg h4] at h
    by_cases h5 : c0 = 'i'
    · subst h5
      rw [if_pos rfl] at h
      cases rest0 with
      | nil =>
        rw [if_neg (by simp), if_neg (by simp)] at h
        exact (hne h.symm).elim
      | cons c1 tl =>
        by_cases hi1 : c1 = 'f'
        · subst hi1
          rw [if_pos (show ('f' :: tl).head? = some 'f' from rfl)] at h
          cases tl with
          | nil =>
            rw [if_pos (show (['i', 'f'] : List Char).length = 2 from rfl)] at h
            rw [← h]
            decide
          | cons c2 tl2 =>
            rw [if_neg (by simp)] at h
            exact (hne h.symm).elim
        rw [if_neg (by simpa using hi1)] at h
        by_cases hi2 : c1 = 'n'
        · subst hi2
          rw [if_pos (show ('n' :: tl).head? = some 'n' from rfl)] at h
          cases tl with
          | nil =>
            rw [if_pos (show (['i', 'n'] : List Char).length = 2 from rfl)] at h
            rw [← h]
            decide
          | cons c2 tl2 =>
            rw [if_neg (by simp)] at h
            obtain ⟨ha, hb⟩ := kwClose2 _ _ _ _ _ _ h hne
            subst hb
            rw [ha]
            decide
        rw [if_neg (by simpa using hi2)] at h
        exact (hne h.symm).elim
    rw [if_neg h5] at h
    by_cases h6 : c0 = 'm'
    · subst h6
      rw [if_pos rfl] at h
      obtain ⟨ha, hb⟩ := kwClose1 _ _ _ _ _ h hne
      subst ha
      subst hb
      decide
    rw [if_neg h6] at h
    by_cases h7 : c0 = 'n'
    · subst h7
      rw [if_pos rfl] at h
      cases rest0 with
      | nil =>
        rw [if_neg (by simp), if_neg (by simp)] at h
        exact (hne h.symm).elim
      | cons c1 tl =>
        by_cases hn1 : c1 = 'i'
        · subst hn1
          rw [if_pos (show ('i' :: tl).head? = some 'i' from rfl)] at h
          obtain ⟨ha, hb⟩ := kwClose2 _ _ _ _ _ _ h hne
          subst ha
          subst hb
          decide
        rw [if_neg (by simpa using hn1)] at h
        by_cases hn2 : c1 = 'o'
        · subst hn2
          rw [if_pos (show ('o' :: tl).head? = some 'o' from rfl)] at h
          obtain ⟨ha, hb⟩ := kwClose2 _ _ _ _ _ _ h hne
          subst ha
          subst hb
          decide
        rw [if_neg (by simpa using hn2)] at h
        exact (hne h.symm).elim
    rw [if_neg h7] at h
    by_cases h8 : c0 = 'o'
    · subst h8
      rw [if_pos rfl] at h
      obtain ⟨ha, hb⟩ := kwClose1 _ _ _ _ _ h hne
      subst ha
      subst hb
      decide
    rw [if_neg h8] at h
    by_cases h9 : c0 = 'p'
    · subst h9
      rw [if_pos rfl] at h
      obtain ⟨ha, hb⟩ := kwClose1 _ _ _ _ _ h hne
      subst ha
      subst hb
      decide
    rw [if_neg h9] at h
    by_cases h10 : c0 = 'r'
    · subst h10
      rw [if_pos rfl] at h
      obtain ⟨ha, hb⟩ := kwClose1 _ _ _ _ _ h hne
      subst ha
      subst hb
      decide
    rw [if_neg h10] at h
    by_cases h11 : c0 = 's'
    · subst h11
      rw [if_pos rfl] at h
      obtain ⟨ha, hb⟩ := kwClose1 _ _ _ _ _ h hne
      subst ha
      subst hb
      decide
    rw [if_neg h11] at h
    by_cases h12 : c0 = 't'
    · subst h12
      rw [if_pos rfl] at h
      cases rest0 with
      | nil =>
        rw [if_neg (by simp), if_neg (by simp)] at h
        exact (hne h.symm).elim
      | cons c1 tl =>
        by_cases ht1 : c1 = 'r'
        · subst ht1
          rw [if_pos (show ('r' :: tl).head? = some 'r' from rfl)] at h
          obtain ⟨ha, hb⟩ := kwClose2 _ _ _ _ _ _ h hne
          subst ha
          subst hb
          decide
        rw [if_neg (by simpa using ht1)] at h
        by_cases ht2 : c1 = 'y'
        · subst ht2
          rw [if_pos (show ('y' :: tl).head? = some 'y' from rfl)] at h
          obtain ⟨ha, hb⟩ := kwClose2 _ _ _ _ _ _ h hne
          subst ha
          subst hb
          decide
        rw [if_neg (by simpa using ht2)] at h
        exact (hne h.symm).elim
    rw [if_neg h12] at h
    by_cases h13 : c0 = 'v'
    · subst h13
      rw [if_pos rfl] at h
      obtain ⟨ha, hb⟩ := kwClose1 _ _ _ _ _ h hne
      subst ha
      subst hb
      decide
    rw [if_neg h13] at h
    by_cases h14 : c0 = 'w'
    · subst h14
      rw [if_pos rfl] at h
      obtain ⟨ha, hb⟩ := kwClose1 _ _ _ _ _ h hne
      subst ha
      subst hb
      decide
    rw [if_neg h14] at h
    exact (hne h.symm).elim

/-- C8 counterexample: the scanner does not treat `self`, `import` or
`export` as reserved words — each scans as a plain identifier (even
though `scanner.h` declares their token types and the compiler
dispatches on them) — and `::` is not a token at all: scanning `::`
yields a single one-character `:` token. -/
theorem c8_counterexample :
    scanToken "self".data = ⟨.identifier, "self".data⟩ ∧
    scanToken "import".data = ⟨.identifier, "import".data⟩ ∧
    scanToken "export".data = ⟨.identifier, "export".data⟩ ∧
    scanToken "::".data = ⟨.colon, [':']⟩ := by
  refine ⟨?_, ?_, ?_, ?_⟩ <;> decide

/-- C8 amended: the reserved words the scanner recognizes are exactly
the 24 entries of `kwPairs` — the spec's list without `self`, `import`
and `export` — each scanning to its keyword token covering the whole
word, and no other identifier maps to a reserved-word token; the
two-character operator forms `!= == <= >= := ->` each scan as a single
token, while `::` does not exist (a lone `:` token is produced). -/
theorem c8_scanner_keywords_amended :
    (∀ p ∈ kwPairs, scanToken p.1 = ⟨p.2, p.1⟩) ∧
    (∀ (s : List Char) (t : TokenType), identifierType s = t →
      t ≠ .identifier → (s, t) ∈ kwPairs) ∧
    (scanToken "!=".data = ⟨.bangEqual, "!=".data⟩ ∧
      scanToken "==".data = ⟨.equalEqual, "==".data⟩ ∧
      scanToken "<=".data = ⟨.lessEqual, "<=".data⟩ ∧
      scanToken ">=".data = ⟨.greaterEqual, ">=".data⟩ ∧
      scanToken ":=".data = ⟨.colonEqual, ":=".data⟩ ∧
      scanToken "->".data = ⟨.arrow, "->".data⟩) ∧
    scanToken "::".data = ⟨.colon, [':']⟩ := by
  refine ⟨by decide, identifierType_mem, ?_, by decide⟩
  refine ⟨?_, ?_, ?_, ?_, ?_, ?_⟩ <;> decide

/-- Witness for C8 amended: `while` is classified as a reserved word
and is in the keyword table. -/
theorem c8_scanner_keywords_amended_witness :
    ("while".data, TokenType.whileKw) ∈ kwPairs :=
  c8_scanner_keywords_amended.2.1 "while".data .whileKw (by decide) (by decide)

end Sharo
